import Mathlib

/-
  Verification development for the wazuh-ai-soc-dashboard alert engine.

  Shallow embedding of:
    - src/backend/app/services/cache_service.py  (CacheService: LRU cache)
    - src/app/alert_parser.py                    (AlertParser: NDJSON reader)
    - src/backend/app/alert_processor.py         (AlertProcessor: normalizer)
    - src/app/services/alert_service.py          (AlertService: query engine)

  Machine integers are modelled as Int/Nat, datetimes as Int instants
  (naive UTC), Python dicts as insertion-ordered association lists with
  unique keys, and per-line JSON decoding as an abstract function
  parameter (the claims under study do not depend on the JSON grammar).
-/

namespace WazuhSOC

/- =====================================================================
   Section 1: CacheService (src/backend/app/services/cache_service.py)

   The OrderedDict `_cache` is modelled as a list of key-value pairs in
   insertion/recency order: the head is the least recently used entry,
   the last element is the most recently used.  `__init__` performs no
   validation of `max_size` (the source stores it unconditionally), so
   the model's constructor is a total function.
   ===================================================================== -/

structure CacheState (α : Type) where
  maxSize : Int
  cache : List (String × α)
  hits : Nat
  misses : Nat
  evictions : Nat
  overwrites : Nat

namespace CacheService

/-- `CacheService.__init__`: stores `max_size` unchecked, empty dict, zero counters. -/
def init (α : Type) (maxSize : Int) : CacheState α :=
  { maxSize := maxSize, cache := [], hits := 0, misses := 0, evictions := 0, overwrites := 0 }

/-- `key in self._cache` -/
def keyMem {α : Type} (c : List (String × α)) (k : String) : Bool :=
  c.any (fun p => p.1 == k)

/-- `CacheService.put`: delete-then-reinsert on overwrite (moves the key to the
most-recently-used end), then evict the least-recently-used entry
(`popitem(last=False)`) when the size exceeds `max_size`. -/
def put {α : Type} (s : CacheState α) (k : String) (v : α) : CacheState α :=
  let c1 := if keyMem s.cache k then s.cache.eraseP (fun p => p.1 == k) else s.cache
  let ow := if keyMem s.cache k then s.overwrites + 1 else s.overwrites
  let c2 := c1 ++ [(k, v)]
  if (c2.length : Int) > s.maxSize then
    { s with cache := c2.drop 1, overwrites := ow, evictions := s.evictions + 1 }
  else
    { s with cache := c2, overwrites := ow }

/-- `CacheService.get`: a miss increments `_misses`; a hit moves the entry to the
most-recently-used end (`move_to_end`) and increments `_hits`. -/
def get {α : Type} (s : CacheState α) (k : String) : Option α × CacheState α :=
  match s.cache.find? (fun p => p.1 == k) with
  | none => (none, { s with misses := s.misses + 1 })
  | some kv =>
      (some kv.2,
       { s with cache := (s.cache.eraseP (fun p => p.1 == k)) ++ [(k, kv.2)],
                hits := s.hits + 1 })

/-- `CacheService.delete`: `self._cache.pop(key, None) is not None`. -/
def delete {α : Type} (s : CacheState α) (k : String) : Bool × CacheState α :=
  if keyMem s.cache k then
    (true, { s with cache := s.cache.eraseP (fun p => p.1 == k) })
  else
    (false, s)

/-- `CacheService.reset_stats` -/
def resetStats {α : Type} (s : CacheState α) : CacheState α :=
  { s with hits := 0, misses := 0, evictions := 0, overwrites := 0 }

/-- `CacheService.clear`: empties the dict and resets all counters. -/
def clear {α : Type} (s : CacheState α) : CacheState α :=
  resetStats { s with cache := [] }

/-- `CacheService.size` -/
def size {α : Type} (s : CacheState α) : Nat :=
  s.cache.length

/-- Python `round(x, 2)` on the exact rational value: round half to the nearest
multiple of 1/100.  (The source rounds a float; the claims under study use
values where the two agree.) -/
def round2 (q : ℚ) : ℚ :=
  ((round (q * 100) : ℤ) : ℚ) / 100

structure CacheStats where
  size : Nat
  maxSize : Int
  hits : Nat
  misses : Nat
  evictions : Nat
  overwrites : Nat
  hitRate : ℚ
  totalRequests : Nat

/-- `CacheService.get_stats`: `hit_rate = (hits / total * 100) if total else 0.0`,
reported as `round(hit_rate, 2)`. -/
def getStats {α : Type} (s : CacheState α) : CacheStats :=
  let total := s.hits + s.misses
  let hitRate : ℚ := if total = 0 then 0 else (s.hits : ℚ) / (total : ℚ) * 100
  { size := s.cache.length, maxSize := s.maxSize, hits := s.hits, misses := s.misses,
    evictions := s.evictions, overwrites := s.overwrites,
    hitRate := round2 hitRate, totalRequests := total }

/-- Pure view of the key-value mapping held by the cache (the value `get`
would return; `get`'s recency/counter side effects do not change it). -/
def cacheLookup {α : Type} (s : CacheState α) (k : String) : Option α :=
  (s.cache.find? (fun p => p.1 == k)).map (fun kv => kv.2)

/-- One client-visible cache operation. -/
inductive CacheOp (α : Type) where
  | put (k : String) (v : α)
  | get (k : String)
  | delete (k : String)
  | clear
  | resetStats

/-- Apply one operation, keeping only the state (returned values dropped). -/
def applyOp {α : Type} (s : CacheState α) : CacheOp α → CacheState α
  | .put k v => put s k v
  | .get k => (get s k).2
  | .delete k => (delete s k).2
  | .clear => clear s
  | .resetStats => resetStats s

/-- Run a sequence of cache operations. -/
def runOps {α : Type} (s : CacheState α) (ops : List (CacheOp α)) : CacheState α :=
  ops.foldl applyOp s

end CacheService

/- =====================================================================
   Section 2: AlertParser (src/app/alert_parser.py)

   A file is a list of bytes (`List Nat`); the line terminator is 10.
   The composite "decode the stripped line and `json.loads` it"
   (returning no record on malformed input) is an abstract parameter
   `loads : List Nat → Option α`, and `_extract_timestamp` is an
   abstract `tsf : α → Option Int` (datetimes are `Int` instants).
   Whitespace stripping is modelled at the byte level, which agrees
   with `str.strip` on UTF-8 input.  The claims under study do not
   depend on the JSON grammar or on the text encoding.
   ===================================================================== -/

namespace AlertParser

/-- ASCII whitespace, as stripped by `bytes`/`str.strip`. -/
def isWSByte (b : Nat) : Bool :=
  b == 32 || b == 9 || b == 10 || b == 13 || b == 11 || b == 12

/-- Python `strip()` on a line, modelled on bytes. -/
def stripBytes (l : List Nat) : List Nat :=
  (((l.dropWhile isWSByte).reverse).dropWhile isWSByte).reverse

/-- `buffer.split(b"\n")` as (first segment, remaining segments); the first
component never contains a separator. -/
def splitNLAux : List Nat → List Nat × List (List Nat)
  | [] => ([], [])
  | b :: rest =>
      let r := splitNLAux rest
      if b == 10 then ([], r.1 :: r.2) else (b :: r.1, r.2)

/-- All segments of `split(b"\n")`, in file order. -/
def splitNL (l : List Nat) : List (List Nat) :=
  (splitNLAux l).1 :: (splitNLAux l).2

/-- The candidate lines `_parse_reverse` processes over the whole scan, in
processing (newest-first) order: every segment after the first, reversed.
(The first segment is the carry-over buffer left when the scan reaches the
start of the file; the source never parses it.) -/
def revLines (l : List Nat) : List (List Nat) :=
  (splitNLAux l).2.reverse

/-- `AlertParser._passes_time_filter`: trivially true with no bounds; records
without a parseable timestamp pass unconditionally. -/
def passesTimeFilter (t? : Option Int) (startT endT : Option Int) : Bool :=
  match startT, endT with
  | none, none => true
  | _, _ =>
    match t? with
    | none => true
    | some t =>
      if (match startT with | some s => decide (t < s) | none => false) then false
      else if (match endT with | some e => decide (t > e) | none => false) then false
      else true

/-- Python truthiness of the `max_alerts` argument: `None` and `0` are falsy. -/
def maxTruthy (m : Option Int) : Bool :=
  match m with
  | none => false
  | some v => !(v == 0)

/-- The `if max_alerts and yielded >= max_alerts` break condition. -/
def hitLimit (m : Option Int) (yielded : Int) : Bool :=
  match m with
  | none => false
  | some v => !(v == 0) && decide (yielded ≥ v)

/-- Forward-mode per-line loop of `AlertParser.parse_alerts`: strip, skip
empty lines, decode, apply the time filter, yield, stop after the count
bound is hit. -/
def forwardGo {α : Type} (loads : List Nat → Option α) (tsf : α → Option Int)
    (startT endT : Option Int) (m : Option Int) :
    List (List Nat) → Int → List α
  | [], _ => []
  | seg :: rest, yielded =>
    let line := stripBytes seg
    if line.isEmpty then forwardGo loads tsf startT endT m rest yielded
    else
      match loads line with
      | none => forwardGo loads tsf startT endT m rest yielded
      | some a =>
        if passesTimeFilter (tsf a) startT endT then
          if hitLimit m (yielded + 1) then [a]
          else a :: forwardGo loads tsf startT endT m rest (yielded + 1)
        else forwardGo loads tsf startT endT m rest yielded

/-- Forward mode of `AlertParser.parse_alerts` (text-mode iteration over the
file's newline-separated lines; a trailing empty segment is stripped to the
empty line and skipped, matching Python's line iteration). -/
def parseForward {α : Type} (loads : List Nat → Option α) (tsf : α → Option Int)
    (startT endT : Option Int) (m : Option Int) (file : List Nat) : List α :=
  forwardGo loads tsf startT endT m (splitNL file) 0

/-- Result of processing one batch of reverse-order lines: either the whole
production has returned (early exit on an old timestamp, or count bound hit),
or it continues with the updated `yielded` counter. -/
inductive StepRes (α : Type) where
  | stop (out : List α)
  | more (out : List α) (yielded : Int)

/-- Records emitted by a `StepRes`. -/
def stepOut {α : Type} : StepRes α → List α
  | .stop out => out
  | .more out _ => out

/-- The early-exit test of `_parse_reverse`:
`if start_time and alert_time and alert_time < start_time: return`. -/
def oldTimestamp (t? : Option Int) (startT : Option Int) : Bool :=
  match startT, t? with
  | some s, some t => decide (t < s)
  | _, _ => false

/-- Per-line loop body of `AlertParser._parse_reverse`, over a batch of
already-reversed complete lines: strip, skip empty, decode, early-exit when
the parsed timestamp is strictly before the window start, time-filter,
yield, stop after the count bound is hit. -/
def emitRevLines {α : Type} (loads : List Nat → Option α) (tsf : α → Option Int)
    (startT endT : Option Int) (m : Option Int) :
    List (List Nat) → Int → StepRes α
  | [], yielded => .more [] yielded
  | raw :: rest, yielded =>
    let line := stripBytes raw
    if line.isEmpty then emitRevLines loads tsf startT endT m rest yielded
    else
      match loads line with
      | none => emitRevLines loads tsf startT endT m rest yielded
      | some a =>
        if oldTimestamp (tsf a) startT then .stop []
        else if passesTimeFilter (tsf a) startT endT then
          if hitLimit m (yielded + 1) then .stop [a]
          else
            match emitRevLines loads tsf startT endT m rest (yielded + 1) with
            | .stop out => .stop (a :: out)
            | .more out y => .more (a :: out) y
        else emitRevLines loads tsf startT endT m rest yielded

/-- Chunked backward scan of `AlertParser._parse_reverse`: step back by
`min(8192, position)` bytes, prepend the chunk to the carry-over buffer,
split on newlines, keep the first segment as the new carry-over, and process
the remaining segments last-to-first.  `fuel` is a structural-recursion
bound; every call site supplies `fuel ≥ position`, and the loop consumes at
least one byte of `position` per iteration, so the fuel clause is never the
reason the loop ends. -/
def parseReverseLoop {α : Type} (loads : List Nat → Option α) (tsf : α → Option Int)
    (startT endT : Option Int) (m : Option Int) (file : List Nat) :
    Nat → Nat → List Nat → Int → List α
  | 0, _, _, _ => []
  | _ + 1, 0, _, _ => []
  | fuel + 1, position, buffer, yielded =>
    let chunkSize := min 8192 position
    let position1 := position - chunkSize
    let buffer1 := (file.drop position1).take chunkSize ++ buffer
    let s := splitNLAux buffer1
    match emitRevLines loads tsf startT endT m s.2.reverse yielded with
    | .stop out => out
    | .more out y => out ++ parseReverseLoop loads tsf startT endT m file fuel position1 s.1 y

/-- `AlertParser._parse_reverse`: seek to end of file and scan backward. -/
def parseReverse {α : Type} (loads : List Nat → Option α) (tsf : α → Option Int)
    (startT endT : Option Int) (m : Option Int) (file : List Nat) : List α :=
  parseReverseLoop loads tsf startT endT m file file.length file.length [] 0

/-- `AlertParser.parse_alerts`: dispatch on the `reverse` flag. -/
def parseAlerts {α : Type} (reverse : Bool) (loads : List Nat → Option α)
    (tsf : α → Option Int) (startT endT : Option Int) (m : Option Int)
    (file : List Nat) : List α :=
  if reverse then parseReverse loads tsf startT endT m file
  else parseForward loads tsf startT endT m file

/-- Concrete single-digit line codec used to evaluate the parser on concrete
files: a stripped line decodes to its leading ASCII digit. -/
def digitLoads (l : List Nat) : Option Int :=
  match l with
  | [] => none
  | b :: _ => if 48 ≤ b && b ≤ 57 then some ((b : Int) - 48) else none

/-- Concrete timestamp extractor for `digitLoads` records: the record's value
is its own timestamp; the value 9 stands for a record without a parseable
timestamp. -/
def digitTs (n : Int) : Option Int :=
  if n == 9 then none else some n

end AlertParser

/- =====================================================================
   Section 3: AlertProcessor (src/backend/app/alert_processor.py)

   Raw records are JSON values; a raw alert is a Python dict, modelled
   as an insertion-ordered association list with unique keys.  Python
   exceptions raised inside `process`'s `try` block are modelled as
   `Except Unit`; the `except` clause maps them to `None`.  The MD5 hex
   digest is an abstract parameter `digest : String → String` (its only
   properties used by the claims are its length and hex alphabet), and
   `datetime.fromisoformat` is an abstract `parseIso : String → Option Int`.
   ===================================================================== -/

inductive JVal where
  | null
  | bool (b : Bool)
  | num (n : Int)
  | str (s : String)
  | arr (elems : List JVal)
  | obj (fields : List (String × JVal))

/-- A decoded raw alert: a JSON object's field list. -/
abbrev RawRecord : Type := List (String × JVal)

namespace PyDict

/-- `d.get(k)` on an insertion-ordered dict. -/
def get? (d : RawRecord) (k : String) : Option JVal :=
  (d.find? (fun p => p.1 == k)).map (fun p => p.2)

/-- `d.get(k, default)`. -/
def getD (d : RawRecord) (k : String) (v : JVal) : JVal :=
  (get? d k).getD v

/-- `k in d`. -/
def contains (d : RawRecord) (k : String) : Bool :=
  d.any (fun p => p.1 == k)

/-- `d.pop(k)`: remove the entry (the caller checked `k in d`). -/
def pop (d : RawRecord) (k : String) : RawRecord :=
  d.eraseP (fun p => p.1 == k)

/-- `d[k] = v`: replace in place if the key exists, else append. -/
def set (d : RawRecord) (k : String) (v : JVal) : RawRecord :=
  if contains d k then d.map (fun p => if p.1 == k then (k, v) else p)
  else d ++ [(k, v)]

end PyDict

/-- Python truthiness of a JSON value (`if not x`). -/
def jvalTruthy : JVal → Bool
  | .null => false
  | .bool b => b
  | .num n => !(n == 0)
  | .str s => !(s == "")
  | .arr l => !l.isEmpty
  | .obj f => !f.isEmpty

namespace AlertProcessor

/-- `AlertNormalizer.FIELD_MAPPINGS`, in dict iteration (definition) order. -/
def fieldMappings : List (String × String) :=
  [("source_ip", "srcip"), ("src_ip", "srcip"),
   ("destination_ip", "dstip"), ("dest_ip", "dstip")]

/-- `AlertNormalizer.normalize`: for each mapping, if the legacy key is
present, move its value to the canonical key. -/
def normalize (raw : RawRecord) : RawRecord :=
  fieldMappings.foldl
    (fun d m =>
      if PyDict.contains d m.1 then
        PyDict.set (PyDict.pop d m.1) m.2 (PyDict.getD d m.1 .null)
      else d)
    raw

/-- JSON string escaping as in `json.dumps` (quote and backslash; control and
non-ASCII escapes are not exercised by the claims under study). -/
def escapeChar (c : Char) : String :=
  if c == '"' then "\\\"" else if c == '\\' then "\\\\" else String.mk [c]

/-- JSON rendering of a string literal. -/
def dumpStr (s : String) : String :=
  "\"" ++ String.join (s.data.map escapeChar) ++ "\""

mutual

/-- `json.dumps(v, sort_keys=True, default=str)` on a JSON value: object
fields are rendered and then emitted in key-sorted order (`sort_keys=True`
sorts every nesting level). -/
def dumps : JVal → String
  | .null => "null"
  | .bool b => if b then "true" else "false"
  | .num n => toString n
  | .str s => dumpStr s
  | .arr l => "[" ++ ", ".intercalate (dumpsList l) ++ "]"
  | .obj fs =>
      "\x7b" ++
        ", ".intercalate
          (((dumpsFields fs).mergeSort (fun a b => a.1 ≤ b.1)).map
            (fun p => dumpStr p.1 ++ ": " ++ p.2)) ++
      "\x7d"

def dumpsList : List JVal → List String
  | [] => []
  | v :: rest => dumps v :: dumpsList rest

/-- Rendered object fields, keyed for sorting. -/
def dumpsFields : List (String × JVal) → List (String × String)
  | [] => []
  | p :: rest => (p.1, dumps p.2) :: dumpsFields rest

end

/-- The canonicalized (key-sorted, string-coerced) serialization of a raw
alert, i.e. `json.dumps(raw, sort_keys=True, default=str)`. -/
def canonicalDump (raw : RawRecord) : String :=
  dumps (.obj raw)

/-- The raw timestamp string `raw.get("timestamp", "")` used for the ID:
`none` models the `AttributeError` raised by `.replace` when the field holds
a non-string value. -/
def tsString (raw : RawRecord) : Option String :=
  match PyDict.get? raw "timestamp" with
  | none => some ""
  | some (.str s) => some s
  | some _ => none

/-- `ts.replace(":", "").replace("-", "")`. -/
def stripTsChars (s : String) : String :=
  String.mk (s.data.filter (fun c => !(c == ':' || c == '-')))

/-- Python string slicing `[:n]` (by characters). -/
def strTake (s : String) (n : Nat) : String :=
  String.mk (s.data.take n)

/-- `AlertProcessor._generate_alert_id`: `{compact timestamp}_{first 10 hex
characters of the digest of the canonical dump}`; fails (raises) when the
timestamp field holds a non-string value. -/
def generateAlertId (digest : String → String) (raw : RawRecord) : Option String :=
  let content := canonicalDump raw
  let d := strTake (digest content) 10
  match tsString raw with
  | none => none
  | some ts => some (stripTsChars ts ++ "_" ++ d)

/-- `AlertProcessor._parse_timestamp` (over the raw field value): a falsy
value (absent, `None`, `""`, `0`, ...) falls back to the ingestion time
`now`; a truthy string parses with fallback to `now`; a truthy non-string
raises (`.replace` on a non-string). -/
def parseTimestampE (parseIso : String → Option Int) (now : Int) :
    Option JVal → Except Unit Int
  | none => .ok now
  | some v =>
    if !jvalTruthy v then .ok now
    else
      match v with
      | .str s => .ok ((parseIso s).getD now)
      | _ => .error ()

structure Agent where
  id : String
  name : String
  ip : Option JVal

structure MITREInfo where
  id : List String
  tactic : List String
  technique : List String

structure Rule where
  id : String
  level : Int
  description : String
  groups : List String
  mitre : Option MITREInfo
  firedtimes : Option JVal

structure AlertData where
  srcip : Option JVal
  srcport : Option JVal
  dstip : Option JVal
  dstport : Option JVal
  dstuser : Option JVal
  srcuser : Option JVal
  process_name : Option JVal
  process_id : Option JVal
  win_eventdata : Option JVal
  win_system : Option JVal
  extra : RawRecord

structure Alert where
  id : String
  timestamp : Int
  agent : Agent
  rule : Rule
  data : Option AlertData
  location : Option JVal
  full_log : Option JVal
  decoder : Option JVal

/-- Pydantic `str` coercion of a JSON scalar. -/
def jvalToStr : JVal → String
  | .null => "None"
  | .bool b => if b then "True" else "False"
  | .num n => toString n
  | .str s => s
  | .arr _ => ""
  | .obj _ => ""

/-- A `.get(...)` access on a value expected to be a dict: raises
(`AttributeError`) when the value is not an object. -/
def asObjE : JVal → Except Unit RawRecord
  | .obj fs => .ok fs
  | _ => .error ()

/-- `int(x)`: ints pass, booleans coerce to 0/1, decimal strings parse,
anything else raises. -/
def pyIntE : JVal → Except Unit Int
  | .num n => .ok n
  | .bool b => .ok (if b then 1 else 0)
  | .str s => match s.toInt? with | some n => .ok n | none => .error ()
  | _ => .error ()

/-- A `List[str]` pydantic field: a JSON array with every element coerced by
`str`; a non-array raises a validation error. -/
def strListE : JVal → Except Unit (List String)
  | .arr l => .ok (l.map jvalToStr)
  | _ => .error ()

/-- `AlertProcessor._parse_agent` over `raw.get("agent", {})`. -/
def parseAgentE (v : JVal) : Except Unit Agent := do
  let d ← asObjE v
  .ok { id := jvalToStr (PyDict.getD d "id" (.str "unknown")),
        name := jvalToStr (PyDict.getD d "name" (.str "unknown")),
        ip := PyDict.get? d "ip" }

/-- `AlertProcessor._parse_rule` over `raw.get("rule", {})`. -/
def parseRuleE (v : JVal) : Except Unit Rule := do
  let d ← asObjE v
  let mitre ←
    match PyDict.get? d "mitre" with
    | none => pure (none : Option MITREInfo)
    | some mv => do
        let m ← asObjE mv
        let mid ← strListE (PyDict.getD m "id" (.arr []))
        let mtac ← strListE (PyDict.getD m "tactic" (.arr []))
        let mtech ← strListE (PyDict.getD m "technique" (.arr []))
        pure (some { id := mid, tactic := mtac, technique := mtech })
  let lvl ← pyIntE (PyDict.getD d "level" (.num 0))
  let grps ← strListE (PyDict.getD d "groups" (.arr []))
  .ok { id := jvalToStr (PyDict.getD d "id" (.str "unknown")),
        level := lvl,
        description := jvalToStr (PyDict.getD d "description" (.str "")),
        groups := grps,
        mitre := mitre,
        firedtimes := PyDict.get? d "firedtimes" }

/-- `AlertProcessor._parse_data` over `raw.get("data")`: a falsy value yields
no payload; `win` must be a dict when present. -/
def parseDataE : Option JVal → Except Unit (Option AlertData)
  | none => .ok none
  | some v =>
    if !jvalTruthy v then .ok none
    else do
      let d ← asObjE v
      let win ← asObjE (PyDict.getD d "win" (.obj []))
      .ok (some
        { srcip := PyDict.get? d "srcip", srcport := PyDict.get? d "srcport",
          dstip := PyDict.get? d "dstip", dstport := PyDict.get? d "dstport",
          dstuser := PyDict.get? d "dstuser", srcuser := PyDict.get? d "srcuser",
          process_name := PyDict.get? d "process_name",
          process_id := PyDict.get? d "process_id",
          win_eventdata := PyDict.get? win "eventdata",
          win_system := PyDict.get? win "system",
          extra := d })

/-- `AlertValidator.validate`.  `not alert.timestamp` is never taken in the
source (a `datetime` object is always truthy in Python), so that branch is
the constant `false` here. -/
def validate (a : Alert) : Bool × Option String :=
  if a.id == "" then (false, some "Missing alert ID")
  else if false then (false, some "Missing timestamp")
  else if a.agent.id == "" then (false, some "Missing agent information")
  else if a.rule.id == "" then (false, some "Missing rule information")
  else if !(decide (0 ≤ a.rule.level) && decide (a.rule.level ≤ 15)) then
    (false, some "Invalid severity level")
  else (true, none)

/-- An enrichment step: may fail (raise), in which case `process` keeps the
alert it had before the step. -/
def Enricher : Type := RawRecord → Alert → Except Unit Alert

/-- The enrichment loop of `AlertProcessor.process`: a failing step is
logged and skipped, leaving the alert unchanged. -/
def runEnrichers (raw : RawRecord) (enrichers : List Enricher) (a : Alert) : Alert :=
  enrichers.foldl (fun al e => match e raw al with | .ok a1 => a1 | .error _ => al) a

/-- The body of `AlertProcessor.process`'s `try` block: normalize, build the
alert (any step may raise), run enrichers (individually guarded), validate
(an invalid alert returns `None` without raising). -/
def processBody (parseIso : String → Option Int) (digest : String → String)
    (enrichers : List Enricher) (now : Int) (rawAlert : RawRecord) :
    Except Unit (Option Alert) :=
  let raw := normalize rawAlert
  match generateAlertId digest raw with
  | none => .error ()
  | some id =>
    match parseTimestampE parseIso now (PyDict.get? raw "timestamp") with
    | .error u => .error u
    | .ok ts =>
      match parseAgentE (PyDict.getD raw "agent" (.obj [])) with
      | .error u => .error u
      | .ok agent =>
        match parseRuleE (PyDict.getD raw "rule" (.obj [])) with
        | .error u => .error u
        | .ok rule =>
          match parseDataE (PyDict.get? raw "data") with
          | .error u => .error u
          | .ok data =>
            let alert : Alert :=
              { id := id, timestamp := ts, agent := agent, rule := rule, data := data,
                location := PyDict.get? raw "location",
                full_log := PyDict.get? raw "full_log",
                decoder := PyDict.get? raw "decoder" }
            let alert := runEnrichers raw enrichers alert
            if (validate alert).1 then .ok (some alert) else .ok none

/-- `AlertProcessor.process`: the `except Exception` clause turns any raised
error into `None`. -/
def process (parseIso : String → Option Int) (digest : String → String)
    (enrichers : List Enricher) (now : Int) (rawAlert : RawRecord) : Option Alert :=
  match processBody parseIso digest enrichers now rawAlert with
  | .ok r => r
  | .error _ => none

/-- Lowercase hexadecimal alphabet of `hashlib.md5(...).hexdigest()`. -/
def isHexChar (c : Char) : Bool :=
  ('0' ≤ c && c ≤ '9') || ('a' ≤ c && c ≤ 'f')

end AlertProcessor

/- =====================================================================
   Section 4: AlertService (src/app/services/alert_service.py)

   The store state after a load: the three derived indexes plus the
   Cache.  Query operations read the cache through `cacheLookup`; the
   source's `self.cache.get` also promotes the entry and bumps the
   hit/miss counters, which leaves the key-value mapping unchanged
   (lemmas `get_fst_eq_lookup` / `get_preserves_lookup` below), so the
   records returned and counted are exactly those of `cacheLookup`.
   ===================================================================== -/

namespace AlertService

open AlertProcessor CacheService

/-- `app.models.FilterParams` (all fields optional). -/
structure FilterParams where
  severity_min : Option Int
  severity_max : Option Int
  agent_id : Option String
  agent_name : Option String
  rule_id : Option String
  rule_group : Option String
  mitre_technique : Option String
  start_time : Option Int
  end_time : Option Int

/-- Python truthiness of an optional string filter field (`if filters.x`):
`None` and the empty string are falsy. -/
def strTruthy : Option String → Bool
  | none => false
  | some s => !(s == "")

/-- Store state: the three indexes and the cache. -/
structure ServiceState where
  agentIndex : List (String × List String)
  ruleIndex : List (String × List String)
  timeIndex : List (Int × String)
  cache : CacheState Alert

/-- `self._agent_index.get(key, [])` / `self._rule_index.get(key, [])`
(a `defaultdict(list)` read through `.get` with default). -/
def idxGet (idx : List (String × List String)) (k : String) : List String :=
  ((idx.find? (fun p => p.1 == k)).map (fun p => p.2)).getD []

/-- `AlertService._matches_filters`. -/
def matchesFilters (a : Alert) (f : FilterParams) : Bool :=
  if (match f.severity_min with | some lo => decide (a.rule.level < lo) | none => false) then false
  else if (match f.severity_max with | some hi => decide (a.rule.level > hi) | none => false) then false
  else if strTruthy f.agent_id && !(a.agent.id == f.agent_id.getD "") then false
  else if strTruthy f.agent_name && !(a.agent.name == f.agent_name.getD "") then false
  else if strTruthy f.rule_id && !(a.rule.id == f.rule_id.getD "") then false
  else if strTruthy f.rule_group && !(a.rule.groups.contains (f.rule_group.getD "")) then false
  else if strTruthy f.mitre_technique &&
      !(match a.rule.mitre with
        | none => false
        | some m => m.id.contains (f.mitre_technique.getD "")) then false
  else if (match f.start_time with | some st => decide (a.timestamp < st) | none => false) then false
  else if (match f.end_time with | some et => decide (a.timestamp > et) | none => false) then false
  else true

/-- The sort key of `_get_filtered_ids`'s final pass:
`self.cache.get(x).timestamp if self.cache.get(x) else datetime.min`,
modelled as a lexicographic pair with `datetime.min` below every instant. -/
def sortKey (st : ServiceState) (aid : String) : Bool × Int :=
  match cacheLookup st.cache aid with
  | none => (false, 0)
  | some a => (true, a.timestamp)

/-- Descending comparison on sort keys (`sorted(..., reverse=True)`). -/
def keyGE (x y : Bool × Int) : Bool :=
  match x, y with
  | (true, tx), (true, ty) => decide (ty ≤ tx)
  | (true, _), (false, _) => true
  | (false, _), (true, _) => false
  | (false, _), (false, _) => true

/-- Python `set(...)` of a list, as a deduplicated list (membership is all
the queries below depend on). -/
def dedup (l : List String) : List String :=
  l.eraseDups

/-- Insert an id into a list already sorted by descending sort key. -/
def insertIdDesc (st : ServiceState) (aid : String) : List String → List String
  | [] => [aid]
  | b :: rest =>
      if keyGE (sortKey st aid) (sortKey st b) then aid :: b :: rest
      else b :: insertIdDesc st aid rest

/-- `sorted(candidate_ids, key=..., reverse=True)`, as a structural
insertion sort (a deterministic stand-in for Python's stable sort; the
queries under study do not depend on the ordering of the candidate set). -/
def sortIdsDesc (st : ServiceState) : List String → List String
  | [] => []
  | aid :: rest => insertIdDesc st aid (sortIdsDesc st rest)

/-- `AlertService._get_filtered_ids`: with no filters, all time-indexed ids
newest-first, with no cache validation; with filters, index-derived
candidates re-validated against the cache and the remaining predicates. -/
def getFilteredIds (st : ServiceState) (filters : Option FilterParams) : List String :=
  match filters with
  | none => (st.timeIndex.reverse).map (fun p => p.2)
  | some f =>
    let c1 : Option (List String) :=
      if strTruthy f.agent_id then some (dedup (idxGet st.agentIndex (f.agent_id.getD "")))
      else none
    let c2 : Option (List String) :=
      if strTruthy f.rule_id then
        let rs := dedup (idxGet st.ruleIndex (f.rule_id.getD ""))
        some (match c1 with
              | none => rs
              | some c => c.filter (fun aid => rs.contains aid))
      else c1
    let candidates : List String :=
      match c2 with
      | none => dedup (st.timeIndex.map (fun p => p.2))
      | some c => c
    let sortedIds := sortIdsDesc st candidates
    sortedIds.filter (fun aid =>
      match cacheLookup st.cache aid with
      | none => false
      | some a => matchesFilters a f)

/-- `AlertService.get_alerts`: total = candidate count; the returned page is
the `[offset, offset+limit)` slice with each id fetched from the cache and
kept only when present. -/
def getAlerts (st : ServiceState) (limit offset : Nat)
    (filters : Option FilterParams) : List Alert × Nat :=
  let alertIds := getFilteredIds st filters
  let total := alertIds.length
  let paginated := (alertIds.drop offset).take limit
  (paginated.filterMap (fun aid => cacheLookup st.cache aid), total)

end AlertService

/- =====================================================================
   Section 5: concrete fixtures used to evaluate the model
   ===================================================================== -/

/-- `put "a"; get "a" (hit); get "b" (miss)` on a capacity-2 cache. -/
def c3state : CacheState Nat :=
  CacheService.runOps (CacheService.init Nat 2) [.put "a" 1, .get "a", .get "b"]

/-- A put performed on a cache constructed with `max_size = 0`. -/
def c4state : CacheState Nat :=
  CacheService.put (CacheService.init Nat 0) "a" 1

/-- A get performed after that put. -/
def c4got : Option Nat × CacheState Nat :=
  CacheService.get c4state "a"

/-- Capacity 1: insert `"a"`, read it (promoting it), insert `"b"`. -/
def c5state : CacheState Nat :=
  CacheService.put
    ((CacheService.get (CacheService.put (CacheService.init Nat 1) "a" 1) "a").2)
    "b" 2

/-- A full capacity-2 cache holding `"a"` (least recently used) and `"b"`. -/
def c5full : CacheState Nat :=
  { maxSize := 2, cache := [("a", 1), ("b", 2)],
    hits := 0, misses := 0, evictions := 0, overwrites := 0 }

/-- Bytes of the file `"3\n5\n"`. -/
def fileTwo : List Nat := [51, 10, 53, 10]

/-- Bytes of the file `"3\n5\n7\n"`. -/
def fileThree : List Nat := [51, 10, 53, 10, 55, 10]

/-- Bytes of the file `"5\n1\n4\n"`: scanned backward the reader meets
`4` (in window), then `1` (older than the window start), then `5`. -/
def fileOld : List Nat := [53, 10, 49, 10, 52, 10]

/-- A stand-in digest with md5-hexdigest shape (32 lowercase hex chars). -/
def digest0 : String → String := fun _ => "00112233445566778899aabbccddeeff"

/-- A stand-in ISO-8601 parse that accepts nothing (forcing the fallback). -/
def parseIso0 : String → Option Int := fun _ => none

/-- An enrichment step that always raises. -/
def failEnr : AlertProcessor.Enricher := fun _ _ => .error ()

/-- A well-formed raw alert. -/
def rc6 : RawRecord :=
  [("timestamp", .str "2024-01-01T00:00:00Z"),
   ("rule", .obj [("id", .str "100"), ("level", .num 3)])]

/-- A well-formed raw alert with agent and rule blocks. -/
def c9raw : RawRecord :=
  [("timestamp", .str "2024-01-01T00:00:00Z"),
   ("agent", .obj [("id", .str "a1"), ("name", .str "A")]),
   ("rule", .obj [("id", .str "100"), ("level", .num 3)])]

/-- A raw alert whose `timestamp` field holds a non-string value. -/
def c9badTs : RawRecord := [("timestamp", .num 5)]

/-- Concrete canonical records for the service model. -/
def agent0 : AlertProcessor.Agent := { id := "a1", name := "A", ip := none }

def rule0 : AlertProcessor.Rule :=
  { id := "100", level := 3, description := "", groups := [],
    mitre := none, firedtimes := none }

def alert0 : AlertProcessor.Alert :=
  { id := "x", timestamp := 5, agent := agent0, rule := rule0,
    data := none, location := none, full_log := none, decoder := none }

/-- A store whose time index lists identity `"x"` while the cache no longer
holds it (the shape left behind by an eviction). -/
def stEvicted : AlertService.ServiceState :=
  { agentIndex := [], ruleIndex := [], timeIndex := [(0, "x")],
    cache := CacheService.init AlertProcessor.Alert 10 }

/-- A store whose single record is present in cache and all indexes. -/
def stLive : AlertService.ServiceState :=
  { agentIndex := [("a1", ["x"])], ruleIndex := [("100", ["x"])],
    timeIndex := [(5, "x")],
    cache := { maxSize := 10, cache := [("x", alert0)],
               hits := 0, misses := 0, evictions := 0, overwrites := 0 } }

/-- All filter fields absent. -/
def noFilters : AlertService.FilterParams :=
  { severity_min := none, severity_max := none, agent_id := none,
    agent_name := none, rule_id := none, rule_group := none,
    mitre_technique := none, start_time := none, end_time := none }

/-- A filter selecting agent `"a1"`. -/
def fAgent : AlertService.FilterParams :=
  { severity_min := none, severity_max := none, agent_id := some "a1",
    agent_name := none, rule_id := none, rule_group := none,
    mitre_technique := none, start_time := none, end_time := none }

/- =====================================================================
   Theorems.  Helper lemmas first, then one theorem per claim (with the
   claim id in the doc comment), plus counterexamples and witnesses.
   ===================================================================== -/

namespace CacheService

/-- A cache with non-positive capacity empties itself on every operation. -/
theorem applyOp_cache_nil {α : Type} (s : CacheState α) (op : CacheOp α)
    (hm : s.maxSize ≤ 0) (hc : s.cache = []) :
    (applyOp s op).cache = [] ∧ (applyOp s op).maxSize = s.maxSize := by
  cases op with
  | put k v =>
      simp only [applyOp, put, hc]
      have h1 : (1 : Int) > s.maxSize := by omega
      simp [keyMem, h1]
  | get k => simp [applyOp, get, hc]
  | delete k => simp [applyOp, delete, hc, keyMem]
  | clear => simp [applyOp, clear, resetStats]
  | resetStats => simp [applyOp, resetStats, hc]

theorem runOps_cache_nil {α : Type} (ops : List (CacheOp α)) (s : CacheState α)
    (hm : s.maxSize ≤ 0) (hc : s.cache = []) :
    (runOps s ops).cache = [] := by
  induction ops generalizing s with
  | nil => simpa [runOps] using hc
  | cons op rest ih =>
      have h := applyOp_cache_nil s op hm hc
      have hm2 : (applyOp s op).maxSize ≤ 0 := by rw [h.2]; exact hm
      simpa [runOps] using ih (applyOp s op) hm2 h.1

end CacheService

/-- C4 counterexample: constructing the cache with `max_size = 0` does not
fail; a `put` then executes (recording an eviction) and a `get` executes
(recording a miss), so operations are performed on the zero-capacity cache,
contradicting "construction fails before any put/get can be performed". -/
theorem c4_counterexample :
    c4state.evictions = 1 ∧ c4got.1 = none ∧ c4got.2.misses = 1 := by
  decide

/-- C4 (amended): `CacheService.__init__` performs no capacity validation and
always succeeds; a cache constructed with `max_size ≤ 0` operates normally
but every insertion is immediately followed by an eviction, so after any
sequence of operations it holds no entries. -/
theorem c4_zero_capacity_cache_stays_empty {α : Type} (m : Int) (hm : m ≤ 0)
    (ops : List (CacheService.CacheOp α)) :
    (CacheService.runOps (CacheService.init α m) ops).cache = [] :=
  CacheService.runOps_cache_nil ops (CacheService.init α m) hm rfl

/-- Witness for C4's amended theorem at `max_size = 0`. -/
theorem c4_witness :
    (CacheService.runOps (CacheService.init Nat 0) [.put "a" 1, .get "a"]).cache = [] :=
  c4_zero_capacity_cache_stays_empty 0 (by decide) [.put "a" 1, .get "a"]

namespace CacheService

/-- Operations other than `get` leave the hit and miss counters at zero. -/
theorem runOps_no_get_counters {α : Type} (ops : List (CacheOp α)) (s : CacheState α)
    (hops : ∀ k, CacheOp.get k ∉ ops) (hh : s.hits = 0) (hm : s.misses = 0) :
    (runOps s ops).hits = 0 ∧ (runOps s ops).misses = 0 := by
  induction ops generalizing s with
  | nil => exact ⟨hh, hm⟩
  | cons op rest ih =>
      have hops2 : ∀ k, CacheOp.get k ∉ rest := by
        intro k hk
        exact hops k (List.mem_cons_of_mem _ hk)
      have hstep : (applyOp s op).hits = 0 ∧ (applyOp s op).misses = 0 := by
        cases op with
        | put k v =>
            simp only [applyOp, put]
            constructor <;> (split <;> split <;> simp [hh, hm])
        | get k => exact absurd (List.mem_cons_self _ _) (fun h => hops k h)
        | delete k =>
            simp only [applyOp, delete]
            split <;> simp [hh, hm]
        | clear => simp [applyOp, clear, resetStats]
        | resetStats => simp [applyOp, resetStats]
      simpa [runOps] using ih (applyOp s op) hops2 hstep.1 hstep.2

end CacheService

/-- C3 counterexample: after one hit and one miss, `get_stats` reports a hit
rate of 50 (a rounded percentage), not the exact ratio 1/2 that the claim
states. -/
theorem c3_counterexample :
    (CacheService.getStats c3state).hitRate ≠
      (c3state.hits : ℚ) / ((c3state.hits : ℚ) + (c3state.misses : ℚ)) := by
  have h1 : c3state.hits = 1 := by decide
  have h2 : c3state.misses = 1 := by decide
  simp only [CacheService.getStats, CacheService.round2, h1, h2]
  norm_num [round_eq]

/-- C3 (amended): `stats()` reports the hit rate as a percentage rounded to
two decimal places — within 1/200 of `100 · hits / (hits + misses)` — and
reports 0 when no get requests have occurred (`hits + misses = 0`, as after
any sequence of operations containing no `get`). -/
theorem c3_hit_rate_rounded_percentage :
    (∀ (α : Type) (m : Int) (ops : List (CacheService.CacheOp α)),
      (∀ k, CacheService.CacheOp.get k ∉ ops) →
      (CacheService.getStats (CacheService.runOps (CacheService.init α m) ops)).hitRate = 0 ∧
      (CacheService.getStats (CacheService.runOps (CacheService.init α m) ops)).totalRequests = 0)
    ∧ (∀ (α : Type) (s : CacheState α), s.hits + s.misses ≠ 0 →
        |(CacheService.getStats s).hitRate -
          (s.hits : ℚ) / ((s.hits : ℚ) + (s.misses : ℚ)) * 100| ≤ 1 / 200) := by
  constructor
  · intro α m ops hops
    obtain ⟨hh, hm⟩ :=
      CacheService.runOps_no_get_counters ops (CacheService.init α m) hops rfl rfl
    simp [CacheService.getStats, CacheService.round2, hh, hm]
  · intro α s hs
    have hcast : ((s.hits + s.misses : Nat) : ℚ) = (s.hits : ℚ) + (s.misses : ℚ) := by
      push_cast
      ring
    simp only [CacheService.getStats, CacheService.round2, hs, if_false]
    rw [hcast]
    set q : ℚ := (s.hits : ℚ) / ((s.hits : ℚ) + (s.misses : ℚ)) * 100 with hq
    have h12 : |((round (q * 100) : ℤ) : ℚ) - q * 100| ≤ 1 / 2 := by
      have := abs_sub_round (q * 100)
      rwa [abs_sub_comm] at this
    have heq : ((round (q * 100) : ℤ) : ℚ) / 100 - q
        = (((round (q * 100) : ℤ) : ℚ) - q * 100) / 100 := by
      ring
    rw [heq, abs_div, abs_of_pos (show (0:ℚ) < 100 by norm_num)]
    linarith [h12]

/-- Witness for C3's amended theorem: a put-only history reports hit rate 0,
and a 1-hit/1-miss history reports a value within 1/200 of 50. -/
theorem c3_witness :
    ((CacheService.getStats (CacheService.runOps (CacheService.init Nat 2) [.put "a" 1])).hitRate = 0 ∧
     (CacheService.getStats (CacheService.runOps (CacheService.init Nat 2) [.put "a" 1])).totalRequests = 0)
    ∧ |(CacheService.getStats c3state).hitRate -
        (c3state.hits : ℚ) / ((c3state.hits : ℚ) + (c3state.misses : ℚ)) * 100| ≤ 1 / 200 := by
  constructor
  · exact c3_hit_rate_rounded_percentage.1 Nat 2 [.put "a" 1]
      (by intro k hk; simp at hk)
  · exact c3_hit_rate_rounded_percentage.2 Nat c3state
      (by have h1 : c3state.hits = 1 := by decide
          have h2 : c3state.misses = 1 := by decide
          omega)

namespace CacheService

/-- Every operation keeps `size ≤ max_size` (for a non-negative capacity)
and leaves the capacity unchanged. -/
theorem applyOp_size_le {α : Type} (s : CacheState α) (op : CacheOp α)
    (h0 : 0 ≤ s.maxSize) (h : (s.cache.length : Int) ≤ s.maxSize) :
    ((applyOp s op).cache.length : Int) ≤ (applyOp s op).maxSize ∧
    (applyOp s op).maxSize = s.maxSize := by
  cases op with
  | put k v =>
      simp only [applyOp, put]
      split
      · split
        · refine ⟨?_, rfl⟩
          have he : ((s.cache.eraseP (fun p => p.1 == k)).length : Int) ≤ (s.cache.length : Int) := by
            exact_mod_cast List.length_eraseP_le s.cache
          simp only [List.length_drop, List.length_append, List.length_cons, List.length_nil]
          push_cast
          omega
        · next hov =>
            refine ⟨?_, rfl⟩
            simp only [not_lt] at hov
            simpa using hov
      · split
        · refine ⟨?_, rfl⟩
          simp only [List.length_drop, List.length_append, List.length_cons, List.length_nil]
          push_cast
          omega
        · next hov =>
            refine ⟨?_, rfl⟩
            simp only [not_lt] at hov
            simpa using hov
  | get k =>
      simp only [applyOp, get]
      split
      · exact ⟨h, rfl⟩
      · next kv hfind =>
          refine ⟨?_, rfl⟩
          have hmem := List.mem_of_find?_eq_some hfind
          have hp := List.find?_some hfind
          have hlen := List.length_eraseP_of_mem (p := fun p => p.1 == k) hmem hp
          have hpos : 1 ≤ s.cache.length := List.length_pos_of_mem hmem
          dsimp only
          simp only [List.length_append, List.length_cons, List.length_nil, hlen]
          push_cast
          omega
  | delete k =>
      simp only [applyOp, delete]
      split
      · refine ⟨?_, rfl⟩
        dsimp only
        have he : ((s.cache.eraseP (fun p => p.1 == k)).length : Int) ≤ (s.cache.length : Int) := by
          exact_mod_cast List.length_eraseP_le s.cache
        omega
      · exact ⟨h, rfl⟩
  | clear =>
      exact ⟨by simpa [applyOp, clear, resetStats] using h0, rfl⟩
  | resetStats => exact ⟨h, rfl⟩

/-- The size bound is an invariant of whole operation sequences. -/
theorem runOps_size_le {α : Type} (ops : List (CacheOp α)) (s : CacheState α)
    (h0 : 0 ≤ s.maxSize) (h : (s.cache.length : Int) ≤ s.maxSize) :
    ((runOps s ops).cache.length : Int) ≤ s.maxSize := by
  induction ops generalizing s with
  | nil => simpa [runOps] using h
  | cons op rest ih =>
      obtain ⟨h1, h2⟩ := applyOp_size_le s op h0 h
      have h0b : 0 ≤ (applyOp s op).maxSize := by rw [h2]; exact h0
      have hres := ih (applyOp s op) h0b h1
      rw [h2] at hres
      simpa [runOps] using hres

/-- Inserting a key not already present appends it; the least-recently-used
entry is evicted exactly when the size would exceed the capacity. -/
theorem put_cache_fresh {α : Type} {s : CacheState α} {k : String} {v : α}
    (h : keyMem s.cache k = false) :
    (put s k v).cache =
      if ((s.cache.length : Int) + 1) > s.maxSize then (s.cache ++ [(k, v)]).drop 1
      else s.cache ++ [(k, v)] := by
  simp only [put, h, Bool.false_eq_true, if_false]
  split
  · next hov =>
      rw [if_pos]
      simpa using hov
  · next hov =>
      rw [if_neg]
      simpa using hov

theorem put_maxSize {α : Type} (s : CacheState α) (k : String) (v : α) :
    (put s k v).maxSize = s.maxSize := by
  simp only [put]
  split <;> split <;> rfl

/-- Folding fresh, distinct keys into a cache with enough headroom appends
them in order with no eviction. -/
theorem foldl_put_fresh {α : Type} (ks : List String) (f : String → α)
    (s : CacheState α) (hnd : ks.Nodup)
    (hfresh : ∀ k ∈ ks, keyMem s.cache k = false)
    (hroom : (s.cache.length : Int) + ks.length ≤ s.maxSize) :
    (ks.foldl (fun acc k => put acc k (f k)) s).cache
        = s.cache ++ ks.map (fun k => (k, f k)) ∧
    (ks.foldl (fun acc k => put acc k (f k)) s).maxSize = s.maxSize := by
  induction ks generalizing s with
  | nil => simp
  | cons k ks ih =>
      have hfk : keyMem s.cache k = false := hfresh k (List.mem_cons_self _ _)
      have hstep : (put s k (f k)).cache = s.cache ++ [(k, f k)] := by
        rw [put_cache_fresh hfk, if_neg]
        simp only [List.length_cons] at hroom
        push_cast at hroom ⊢
        omega
      have hmax : (put s k (f k)).maxSize = s.maxSize := put_maxSize s k (f k)
      have hnd2 : ks.Nodup := hnd.of_cons
      have hkn : k ∉ ks := by
        intro hk
        exact (List.nodup_cons.mp hnd).1 hk
      have hfresh2 : ∀ k2 ∈ ks, keyMem (put s k (f k)).cache k2 = false := by
        intro k2 hk2
        rw [hstep]
        simp only [keyMem, List.any_append, Bool.or_eq_false_iff]
        refine ⟨hfresh k2 (List.mem_cons_of_mem _ hk2), ?_⟩
        have : k ≠ k2 := by
          intro he
          exact hkn (he ▸ hk2)
        simp [this]
      have hroom2 : ((put s k (f k)).cache.length : Int) + ks.length ≤ (put s k (f k)).maxSize := by
        rw [hstep, hmax]
        simp only [List.length_cons] at hroom
        simp only [List.length_append, List.length_cons, List.length_nil]
        push_cast at hroom ⊢
        omega
      obtain ⟨hc, hm⟩ := ih (put s k (f k)) hnd2 hfresh2 hroom2
      refine ⟨?_, by simpa [List.foldl_cons, hmax] using hm⟩
      simp only [List.foldl_cons, List.map_cons]
      rw [hc, hstep]
      simp

end CacheService

/-- C5 counterexample: on a capacity-1 cache, insert `"a"`, read it (a hit,
which promotes it), then insert `"b"`: the promoted entry `"a"` is still the
one evicted by the next overflowing insert, so the promotion clause of the
claim fails at capacity 1. -/
theorem c5_counterexample :
    c5state.cache.map Prod.fst = ["b"] ∧ c5state.hits = 1 := by
  decide

/-- C5 (amended): for every operation sequence on a cache of capacity c ≥ 1
the cache never holds more than c entries; inserting c+1 distinct keys into
a fresh cache leaves exactly c entries with the least-recently-used (first
inserted) key evicted; and a get promotes its key so that it survives the
next overflowing insert provided the cache holds at least two entries (on a
single-entry cache the promoted entry is still the one evicted). -/
theorem c5_lru_eviction :
    (∀ (α : Type) (c : Nat), 1 ≤ c → ∀ (ops : List (CacheService.CacheOp α)),
      (CacheService.runOps (CacheService.init α (c : Int)) ops).cache.length ≤ c)
    ∧ (∀ (α : Type) (c : Nat) (ks : List String) (f : String → α), 1 ≤ c →
        ks.Nodup → ks.length = c + 1 →
        ((ks.foldl (fun acc k => CacheService.put acc k (f k)) (CacheService.init α (c : Int))).cache.map
          Prod.fst) = ks.drop 1)
    ∧ (∀ (α : Type) (s : CacheState α) (k j : String) (v : α),
        CacheService.keyMem s.cache k = true → CacheService.keyMem s.cache j = false →
        2 ≤ s.cache.length →
        CacheService.keyMem ((CacheService.put (CacheService.get s k).2 j v).cache) k = true) := by
  refine ⟨?_, ?_, ?_⟩
  · intro α c hc ops
    have h := CacheService.runOps_size_le ops (CacheService.init α (c : Int))
      (by simp [CacheService.init]) (by simp [CacheService.init])
    have hm : (CacheService.init α (c : Int)).maxSize = (c : Int) := rfl
    rw [hm] at h
    exact_mod_cast h
  · intro α c ks f hc hnd hlen
    classical
    set A := ks.take c with hA
    set B := ks.drop c with hB
    have hAB : A ++ B = ks := List.take_append_drop c ks
    have hlenA : A.length = c := by
      rw [hA, List.length_take, hlen]
      omega
    have hlenB : B.length = 1 := by
      have := congrArg List.length hAB
      simp only [List.length_append] at this
      omega
    obtain ⟨klast, hBk⟩ := List.length_eq_one.mp hlenB
    have hndA : A.Nodup := (List.take_sublist c ks).nodup hnd
    have hkA : klast ∉ A := by
      have hnd2 : (A ++ B).Nodup := by rw [hAB]; exact hnd
      have hdisj := (List.nodup_append.mp hnd2).2.2
      intro hmem
      exact hdisj hmem (by rw [hBk]; exact List.mem_singleton.mpr rfl)
    obtain ⟨hs1c, hs1m⟩ := CacheService.foldl_put_fresh A f (CacheService.init α (c : Int))
      hndA (by intro k hk; rfl) (by simp [CacheService.init, hlenA])
    set s1 := A.foldl (fun acc k => CacheService.put acc k (f k)) (CacheService.init α (c : Int)) with hs1
    have hcache1 : s1.cache = A.map (fun k => (k, f k)) := by
      rw [hs1c]
      simp [CacheService.init]
    have hfreshLast : CacheService.keyMem s1.cache klast = false := by
      rw [hcache1, Bool.eq_false_iff]
      intro htrue
      rw [CacheService.keyMem, List.any_eq_true] at htrue
      obtain ⟨x, hx, hpx⟩ := htrue
      obtain ⟨a, ha, hax⟩ := List.mem_map.mp hx
      apply hkA
      have hx1 : x.1 = klast := by simpa using hpx
      rw [← hax] at hx1
      simp only at hx1
      exact hx1 ▸ ha
    have hfold : ks.foldl (fun acc k => CacheService.put acc k (f k)) (CacheService.init α (c : Int))
        = CacheService.put s1 klast (f klast) := by
      rw [← hAB, hBk, List.foldl_append]
      rfl
    rw [hfold, CacheService.put_cache_fresh hfreshLast]
    have hlen1 : s1.cache.length = c := by
      rw [hcache1, List.length_map, hlenA]
    rw [if_pos (by rw [hlen1, hs1m]; simp [CacheService.init])]
    obtain ⟨a0, A', hA0⟩ : ∃ a0 A', A = a0 :: A' := by
      cases hAeq : A with
      | nil => rw [hAeq] at hlenA; simp at hlenA; omega
      | cons a0 A' => exact ⟨a0, A', rfl⟩
    have hdrop : ks.drop 1 = A' ++ [klast] := by
      rw [← hAB, hBk, hA0]
      rfl
    rw [hcache1, hA0, hdrop]
    simp [Function.comp_def]
  · intro α s k j v hk hj hlen2
    have hkj : k ≠ j := by
      intro he
      rw [he, hj] at hk
      exact absurd hk (by simp)
    obtain ⟨kv, hfind⟩ : ∃ kv, s.cache.find? (fun p => p.1 == k) = some kv := by
      have : (s.cache.find? (fun p => p.1 == k)).isSome = true := by
        rw [List.find?_isSome]
        simpa [CacheService.keyMem, List.any_eq_true] using hk
      exact Option.isSome_iff_exists.mp this
    have hget : (CacheService.get s k).2.cache
        = (s.cache.eraseP (fun p => p.1 == k)) ++ [(k, kv.2)] := by
      simp [CacheService.get, hfind]
    set e := s.cache.eraseP (fun p => p.1 == k) with he
    have hmem := List.mem_of_find?_eq_some hfind
    have hp := List.find?_some hfind
    have hlene : e.length = s.cache.length - 1 := List.length_eraseP_of_mem hmem hp
    have hepos : 1 ≤ e.length := by omega
    have hjfresh : CacheService.keyMem (CacheService.get s k).2.cache j = false := by
      rw [hget]
      simp only [CacheService.keyMem, List.any_append, Bool.or_eq_false_iff]
      constructor
      · rw [Bool.eq_false_iff]
        intro hex
        rw [List.any_eq_true] at hex
        obtain ⟨x, hx, hpx⟩ := hex
        have hxs : x ∈ s.cache := (List.eraseP_sublist s.cache).mem hx
        have : CacheService.keyMem s.cache j = true := by
          rw [CacheService.keyMem, List.any_eq_true]
          exact ⟨x, hxs, hpx⟩
        rw [this] at hj
        exact absurd hj (by simp)
      · simp [hkj]
    rw [CacheService.put_cache_fresh hjfresh, hget]
    obtain ⟨x0, e', he'⟩ : ∃ x0 e', e = x0 :: e' := by
      cases heq : e with
      | nil => rw [heq] at hepos; simp at hepos
      | cons x0 e' => exact ⟨x0, e', rfl⟩
    split
    · rw [he']
      simp [CacheService.keyMem]
    · simp [CacheService.keyMem]

/-- Witness for C5's amended theorem: size bound, eviction of the first of
three distinct keys on a capacity-2 cache, and survival of a promoted key. -/
theorem c5_witness :
    (CacheService.runOps (CacheService.init Nat 2)
        [.put "a" 1, .put "b" 2, .get "a", .put "c" 3]).cache.length ≤ 2
    ∧ ((["a", "b", "c"].foldl (fun acc k => CacheService.put acc k 0)
        (CacheService.init Nat (2 : Int))).cache.map Prod.fst) = ["a", "b", "c"].drop 1
    ∧ CacheService.keyMem ((CacheService.put (CacheService.get c5full "a").2 "c" 7).cache) "a" = true := by
  refine ⟨?_, ?_, ?_⟩
  · exact c5_lru_eviction.1 Nat 2 (by decide) _
  · exact c5_lru_eviction.2.1 Nat 2 ["a", "b", "c"] (fun _ => 0) (by decide) (by decide) (by decide)
  · exact c5_lru_eviction.2.2 Nat c5full "a" "c" 7 (by decide) (by decide) (by decide)

namespace AlertParser

/-- Processing a concatenation of reverse-order line batches composes: the
first batch either ends production or hands its counter to the second. -/
theorem emitRevLines_append {α : Type} (loads : List Nat → Option α) (tsf : α → Option Int)
    (s e : Option Int) (m : Option Int) (L1 L2 : List (List Nat)) (y : Int) :
    emitRevLines loads tsf s e m (L1 ++ L2) y =
      match emitRevLines loads tsf s e m L1 y with
      | .stop o => .stop o
      | .more o y1 =>
          match emitRevLines loads tsf s e m L2 y1 with
          | .stop o2 => .stop (o ++ o2)
          | .more o2 y2 => .more (o ++ o2) y2 := by
  induction L1 generalizing y with
  | nil =>
      cases h : emitRevLines loads tsf s e m L2 y <;>
        simp [emitRevLines, h]
  | cons raw rest ih =>
      by_cases hemp : (stripBytes raw).isEmpty
      · simp only [List.cons_append, emitRevLines, hemp, if_true]
        exact ih y
      · simp only [List.cons_append, emitRevLines, hemp, if_false, Bool.false_eq_true]
        cases hload : loads (stripBytes raw) with
        | none => exact ih y
        | some a =>
            by_cases hold : oldTimestamp (tsf a) s
            · simp [hold]
            · simp only [hold, if_false, Bool.false_eq_true]
              by_cases hpass : passesTimeFilter (tsf a) s e
              · simp only [hpass, if_true]
                by_cases hlim : hitLimit m (y + 1)
                · simp [hlim]
                · simp only [hlim, if_false, Bool.false_eq_true]
                  simp only [List.append_eq]
                  rw [ih (y + 1)]
                  cases h1 : emitRevLines loads tsf s e m rest (y + 1) with
                  | stop o => simp
                  | more o y1 =>
                      cases h2 : emitRevLines loads tsf s e m L2 y1 <;> simp [h2]
              · simp only [hpass, if_false, Bool.false_eq_true]
                exact ih y

/-- Once the scan reaches a decodable line whose parsed timestamp is strictly
earlier than the window start, everything after it is discarded and the
production so far is final. -/
theorem emitRevLines_stop_at_old {α : Type} (loads : List Nat → Option α)
    (tsf : α → Option Int) (sv : Int) (e : Option Int) (m : Option Int)
    (l1 l2 : List (List Nat)) (r : List Nat) (a : α) (t : Int) (y : Int)
    (hne : (stripBytes r).isEmpty = false)
    (hload : loads (stripBytes r) = some a)
    (hts : tsf a = some t) (hlt : t < sv) :
    emitRevLines loads tsf (some sv) e m (l1 ++ r :: l2) y =
      .stop (stepOut (emitRevLines loads tsf (some sv) e m l1 y)) := by
  rw [emitRevLines_append]
  have hold : oldTimestamp (tsf a) (some sv) = true := by
    rw [hts]
    simp [oldTimestamp, hlt]
  cases h1 : emitRevLines loads tsf (some sv) e m l1 y with
  | stop o => simp [stepOut]
  | more o y1 =>
      simp only [stepOut]
      rw [show emitRevLines loads tsf (some sv) e m (r :: l2) y1 = .stop [] by
        simp [emitRevLines, hne, hload, hold]]
      simp

/-- The first `split` segment never contains the separator. -/
theorem splitNLAux_fst_no_nl (l : List Nat) : ∀ b ∈ (splitNLAux l).1, b ≠ 10 := by
  induction l with
  | nil => intro b hb; simp [splitNLAux] at hb
  | cons x rest ih =>
      intro b hb
      by_cases hx : x == 10
      · simp [splitNLAux, hx] at hb
      · simp only [splitNLAux, hx, Bool.false_eq_true, if_false, List.mem_cons] at hb
        cases hb with
        | inl h => rw [h]; simpa using hx
        | inr h => exact ih b h

/-- Splitting a separator-free list yields it whole. -/
theorem splitNLAux_of_no_nl (l : List Nat) (h : ∀ b ∈ l, b ≠ 10) :
    splitNLAux l = (l, []) := by
  induction l with
  | nil => rfl
  | cons x rest ih =>
      have hx : ¬(x == 10) := by
        simpa using h x (List.mem_cons_self _ _)
      have hr := ih (fun b hb => h b (List.mem_cons_of_mem _ hb))
      simp [splitNLAux, hx, hr]

theorem splitNLAux_fst_idem (l : List Nat) :
    splitNLAux ((splitNLAux l).1) = ((splitNLAux l).1, []) :=
  splitNLAux_of_no_nl _ (splitNLAux_fst_no_nl l)

/-- The first segment of `X ++ B` only depends on `B` through `B`'s first
segment. -/
theorem splitNLAux_append_fst (X B : List Nat) :
    (splitNLAux (X ++ B)).1 = (splitNLAux (X ++ (splitNLAux B).1)).1 := by
  induction X with
  | nil =>
      simp only [List.nil_append]
      rw [splitNLAux_fst_idem]
  | cons x rest ih =>
      by_cases hx : x == 10
      · simp [splitNLAux, hx]
      · simp [splitNLAux, hx, ih]

/-- Prepending bytes to a carry-over buffer extends the candidate-line list
of the whole remaining content: the buffer's own complete lines come first
(they are nearest the end of the file), and the buffer's first segment fuses
with the prepended bytes. -/
theorem revLines_append (X B : List Nat) :
    revLines (X ++ B) = (splitNLAux B).2.reverse ++ revLines (X ++ (splitNLAux B).1) := by
  induction X with
  | nil =>
      simp only [List.nil_append, revLines]
      rw [splitNLAux_fst_idem]
      simp
  | cons x rest ih =>
      by_cases hx : x == 10
      · have e1 : ∀ (R : List Nat),
            revLines (x :: R) = (splitNLAux R).2.reverse ++ [(splitNLAux R).1] := by
          intro R
          simp [revLines, splitNLAux, hx]
        simp only [revLines] at ih
        rw [List.cons_append, List.cons_append, e1, e1, ih,
          splitNLAux_append_fst rest B, List.append_assoc]
      · have e2 : ∀ (R : List Nat), revLines (x :: R) = revLines R := by
          intro R
          simp [revLines, splitNLAux, hx]
        rw [List.cons_append, List.cons_append, e2, e2, ih]

/-- Characterization of the chunked backward scan: given enough fuel and a
separator-free carry-over buffer, the loop emits exactly what the per-line
loop emits on the candidate lines of the unscanned content plus buffer. -/
theorem parseReverseLoop_eq {α : Type} (loads : List Nat → Option α) (tsf : α → Option Int)
    (s e : Option Int) (m : Option Int) (file : List Nat) :
    ∀ (fuel pos : Nat) (buf : List Nat) (y : Int), pos ≤ fuel → (splitNLAux buf).2 = [] →
    parseReverseLoop loads tsf s e m file fuel pos buf y
      = stepOut (emitRevLines loads tsf s e m (revLines (file.take pos ++ buf)) y) := by
  intro fuel
  induction fuel with
  | zero =>
      intro pos buf y hle hbuf
      have hp : pos = 0 := Nat.le_zero.mp hle
      subst hp
      simp [parseReverseLoop, revLines, hbuf, emitRevLines, stepOut]
  | succ fuel ih =>
      intro pos buf y hle hbuf
      cases pos with
      | zero => simp [parseReverseLoop, revLines, hbuf, emitRevLines, stepOut]
      | succ p =>
          have hchunk1 : 1 ≤ min 8192 (p + 1) := by omega
          have hchunkle : min 8192 (p + 1) ≤ p + 1 := Nat.min_le_right _ _
          have hpos1 : p + 1 - min 8192 (p + 1) ≤ fuel := by omega
          have htake : List.take (p + 1) file
              = List.take (p + 1 - min 8192 (p + 1)) file ++
                List.take (min 8192 (p + 1)) (List.drop (p + 1 - min 8192 (p + 1)) file) := by
            rw [← List.take_add]
            congr 1
            omega
          rw [parseReverseLoop, htake, List.append_assoc]
          rw [revLines_append (List.take (p + 1 - min 8192 (p + 1)) file)
            (List.take (min 8192 (p + 1)) (List.drop (p + 1 - min 8192 (p + 1)) file) ++ buf)]
          rw [emitRevLines_append]
          cases h1 : emitRevLines loads tsf s e m
              ((splitNLAux (List.take (min 8192 (p + 1)) (List.drop (p + 1 - min 8192 (p + 1)) file) ++ buf)).2.reverse) y with
          | stop o => simp [stepOut]
          | more o y1 =>
              simp only [stepOut]
              rw [ih (p + 1 - min 8192 (p + 1))
                ((splitNLAux (List.take (min 8192 (p + 1)) (List.drop (p + 1 - min 8192 (p + 1)) file) ++ buf)).1)
                y1 hpos1 (by rw [splitNLAux_fst_idem])]
              cases h2 : emitRevLines loads tsf s e m
                  (revLines (List.take (p + 1 - min 8192 (p + 1)) file ++
                    (splitNLAux (List.take (min 8192 (p + 1)) (List.drop (p + 1 - min 8192 (p + 1)) file) ++ buf)).1)) y1 <;>
                simp [stepOut]
          omega

/-- `_parse_reverse` emits exactly what the per-line loop emits on the
file's candidate lines (all newline-split segments after the first, in
reverse order). -/
theorem parseReverse_eq {α : Type} (loads : List Nat → Option α) (tsf : α → Option Int)
    (s e : Option Int) (m : Option Int) (file : List Nat) :
    parseReverse loads tsf s e m file
      = stepOut (emitRevLines loads tsf s e m (revLines file) 0) := by
  rw [parseReverse,
    parseReverseLoop_eq loads tsf s e m file file.length file.length [] 0 le_rfl rfl]
  rw [List.append_nil, List.take_length]

end AlertParser

/-- C1: evaluation of both read modes on the two-line file `"3\n5\n"`
(records decoded by the digit codec).  Forward mode parses both lines;
reverse mode emits only the second — the first line of the file is left in
the carry-over buffer when the scan reaches the start of the file and is
never parsed — so reverse-mode output is NOT the reverse of forward-mode
output, contradicting the claimed equivalence.  (The spec's own testable
property for this pair fails; the missing final-buffer flush is a slip in
`_parse_reverse`.) -/
theorem c1_reverse_drops_first_line :
    AlertParser.parseForward AlertParser.digitLoads AlertParser.digitTs none none none fileTwo = [3, 5]
    ∧ AlertParser.parseReverse AlertParser.digitLoads AlertParser.digitTs none none none fileTwo = [5]
    ∧ AlertParser.parseReverse AlertParser.digitLoads AlertParser.digitTs none none none fileTwo
        ≠ (AlertParser.parseForward AlertParser.digitLoads AlertParser.digitTs none none none fileTwo).reverse := by
  refine ⟨by decide, by decide, ?_⟩
  decide

/-- C7: in reverse mode with a window start, as soon as a decoded candidate
line's parsed timestamp is strictly earlier than the window start, the whole
production stops: the output is exactly what was emitted from the lines
scanned before it, and no later-scanned line (`l2`) contributes anything,
whatever its timestamp. -/
theorem c7_reverse_early_exit {α : Type} (loads : List Nat → Option α)
    (tsf : α → Option Int) (sv : Int) (e : Option Int) (m : Option Int)
    (file : List Nat) (l1 l2 : List (List Nat)) (r : List Nat) (a : α) (t : Int)
    (hsplit : AlertParser.revLines file = l1 ++ r :: l2)
    (hne : (AlertParser.stripBytes r).isEmpty = false)
    (hload : loads (AlertParser.stripBytes r) = some a)
    (hts : tsf a = some t) (hlt : t < sv) :
    AlertParser.parseReverse loads tsf (some sv) e m file
      = AlertParser.stepOut (AlertParser.emitRevLines loads tsf (some sv) e m l1 0) := by
  rw [AlertParser.parseReverse_eq, hsplit,
    AlertParser.emitRevLines_stop_at_old loads tsf sv e m l1 l2 r a t 0 hne hload hts hlt]
  rfl

/-- Witness for C7 on the file `"5\n1\n4\n"` with window start 3: the scan
emits `4`, then meets `1 < 3` and stops — the in-window record `5` earlier
in the file is never emitted. -/
theorem c7_witness :
    AlertParser.parseReverse AlertParser.digitLoads AlertParser.digitTs (some 3) none none fileOld
      = AlertParser.stepOut (AlertParser.emitRevLines AlertParser.digitLoads AlertParser.digitTs
          (some 3) none none [[], [52]] 0)
    ∧ AlertParser.parseReverse AlertParser.digitLoads AlertParser.digitTs (some 3) none none fileOld
        = [4] := by
  refine ⟨c7_reverse_early_exit AlertParser.digitLoads AlertParser.digitTs 3 none none
    fileOld [[], [52]] [] [49] 1 1 (by decide) (by decide) (by decide) (by decide) (by decide), ?_⟩
  decide

namespace AlertParser

/-- Every record the reverse per-line loop emits passed the time filter. -/
theorem emitRevLines_mem_passes {α : Type} (loads : List Nat → Option α)
    (tsf : α → Option Int) (s e : Option Int) (m : Option Int) :
    ∀ (lines : List (List Nat)) (y : Int) (a : α),
      a ∈ stepOut (emitRevLines loads tsf s e m lines y) →
      passesTimeFilter (tsf a) s e = true := by
  intro lines
  induction lines with
  | nil => intro y a ha; simp [emitRevLines, stepOut] at ha
  | cons raw rest ih =>
      intro y a ha
      by_cases hemp : (stripBytes raw).isEmpty
      · rw [show emitRevLines loads tsf s e m (raw :: rest) y
            = emitRevLines loads tsf s e m rest y by simp [emitRevLines, hemp]] at ha
        exact ih y a ha
      · simp only [emitRevLines, hemp, Bool.false_eq_true, if_false] at ha
        cases hload : loads (stripBytes raw) with
        | none =>
            rw [hload] at ha
            exact ih y a ha
        | some b =>
            rw [hload] at ha
            by_cases hold : oldTimestamp (tsf b) s
            · simp [hold, stepOut] at ha
            · simp only [hold, Bool.false_eq_true, if_false] at ha
              by_cases hpass : passesTimeFilter (tsf b) s e
              · simp only [hpass, if_true] at ha
                by_cases hlim : hitLimit m (y + 1)
                · simp only [hlim, if_true, stepOut, List.mem_singleton] at ha
                  rw [ha]
                  exact hpass
                · simp only [hlim, Bool.false_eq_true, if_false] at ha
                  cases h1 : emitRevLines loads tsf s e m rest (y + 1) with
                  | stop o =>
                      rw [h1] at ha
                      simp only [stepOut, List.mem_cons] at ha
                      cases ha with
                      | inl h => rw [h]; exact hpass
                      | inr h =>
                          exact ih (y + 1) a (by rw [h1]; exact h)
                  | more o y2 =>
                      rw [h1] at ha
                      simp only [stepOut, List.mem_cons] at ha
                      cases ha with
                      | inl h => rw [h]; exact hpass
                      | inr h =>
                          exact ih (y + 1) a (by rw [h1]; exact h)
              · simp only [hpass, Bool.false_eq_true, if_false] at ha
                exact ih y a ha

/-- Every record the forward loop emits passed the time filter. -/
theorem forwardGo_mem_passes {α : Type} (loads : List Nat → Option α)
    (tsf : α → Option Int) (s e : Option Int) (m : Option Int) :
    ∀ (segs : List (List Nat)) (y : Int) (a : α),
      a ∈ forwardGo loads tsf s e m segs y →
      passesTimeFilter (tsf a) s e = true := by
  intro segs
  induction segs with
  | nil => intro y a ha; simp [forwardGo] at ha
  | cons seg rest ih =>
      intro y a ha
      by_cases hemp : (stripBytes seg).isEmpty
      · rw [show forwardGo loads tsf s e m (seg :: rest) y
            = forwardGo loads tsf s e m rest y by simp [forwardGo, hemp]] at ha
        exact ih y a ha
      · simp only [forwardGo, hemp, Bool.false_eq_true, if_false] at ha
        cases hload : loads (stripBytes seg) with
        | none =>
            rw [hload] at ha
            exact ih y a ha
        | some b =>
            rw [hload] at ha
            by_cases hpass : passesTimeFilter (tsf b) s e
            · simp only [hpass, if_true] at ha
              by_cases hlim : hitLimit m (y + 1)
              · simp only [hlim, if_true, List.mem_singleton] at ha
                rw [ha]
                exact hpass
              · simp only [hlim, Bool.false_eq_true, if_false, List.mem_cons] at ha
                cases ha with
                | inl h => rw [h]; exact hpass
                | inr h => exact ih (y + 1) a h
            · simp only [hpass, Bool.false_eq_true, if_false] at ha
              exact ih y a ha

end AlertParser

/-- C8: with a time window `[start, end]`, every record either read mode
emits has its parsed timestamp inside the window, or has no parseable
timestamp (such records pass the filter unconditionally). -/
theorem c8_emitted_records_in_window {α : Type} (rev : Bool)
    (loads : List Nat → Option α) (tsf : α → Option Int) (sv ev : Int)
    (m : Option Int) (file : List Nat) (a : α)
    (ha : a ∈ AlertParser.parseAlerts rev loads tsf (some sv) (some ev) m file) :
    match tsf a with
    | none => True
    | some t => sv ≤ t ∧ t ≤ ev := by
  have hpass : AlertParser.passesTimeFilter (tsf a) (some sv) (some ev) = true := by
    cases rev with
    | true =>
        rw [show AlertParser.parseAlerts true loads tsf (some sv) (some ev) m file
            = AlertParser.parseReverse loads tsf (some sv) (some ev) m file from rfl,
          AlertParser.parseReverse_eq] at ha
        exact AlertParser.emitRevLines_mem_passes loads tsf (some sv) (some ev) m _ 0 a ha
    | false =>
        rw [show AlertParser.parseAlerts false loads tsf (some sv) (some ev) m file
            = AlertParser.forwardGo loads tsf (some sv) (some ev) m (AlertParser.splitNL file) 0 from rfl] at ha
        exact AlertParser.forwardGo_mem_passes loads tsf (some sv) (some ev) m _ 0 a ha
  cases hts : tsf a with
  | none => trivial
  | some t =>
      rw [hts] at hpass
      simp only [AlertParser.passesTimeFilter] at hpass
      split_ifs at hpass with h1 h2
      constructor
      · simpa using h1
      · simpa using h2

/-- Witness for C8: the record `3` emitted by a forward read of `"3\n5\n"`
with window `[2, 6]` lies inside the window. -/
theorem c8_witness : (2 : Int) ≤ 3 ∧ (3 : Int) ≤ 6 :=
  c8_emitted_records_in_window false AlertParser.digitLoads AlertParser.digitTs 2 6
    none fileTwo 3 (by decide)

namespace AlertParser

/-- `max_alerts = 0` is falsy, so the forward loop never stops early. -/
theorem forwardGo_zero {α : Type} (loads : List Nat → Option α) (tsf : α → Option Int)
    (s e : Option Int) : ∀ (segs : List (List Nat)) (y : Int),
    forwardGo loads tsf s e (some 0) segs y = forwardGo loads tsf s e none segs y := by
  intro segs
  induction segs with
  | nil => intro y; rfl
  | cons seg rest ih =>
      intro y
      simp only [forwardGo, ih, hitLimit]
      simp

/-- `max_alerts = 0` is falsy, so the reverse per-line loop never stops on
the count bound. -/
theorem emitRevLines_zero {α : Type} (loads : List Nat → Option α) (tsf : α → Option Int)
    (s e : Option Int) : ∀ (lines : List (List Nat)) (y : Int),
    emitRevLines loads tsf s e (some 0) lines y = emitRevLines loads tsf s e none lines y := by
  intro lines
  induction lines with
  | nil => intro y; rfl
  | cons raw rest ih =>
      intro y
      simp only [emitRevLines, ih, hitLimit]
      simp

/-- A truthy `max_alerts = v` truncates the forward production to its first
`max(v, 1)` records (counting from counter `y`). -/
theorem forwardGo_take {α : Type} (loads : List Nat → Option α) (tsf : α → Option Int)
    (s e : Option Int) (v : Int) (hv : v ≠ 0) :
    ∀ (segs : List (List Nat)) (y : Int),
    forwardGo loads tsf s e (some v) segs y
      = (forwardGo loads tsf s e none segs y).take ((v - y) ⊔ 1).toNat := by
  intro segs
  induction segs with
  | nil => intro y; simp [forwardGo]
  | cons seg rest ih =>
      intro y
      by_cases hemp : (stripBytes seg).isEmpty
      · simp only [forwardGo, hemp, if_true]
        exact ih y
      · simp only [forwardGo, hemp, Bool.false_eq_true, if_false]
        cases hload : loads (stripBytes seg) with
        | none => exact ih y
        | some a =>
            by_cases hpass : passesTimeFilter (tsf a) s e
            · simp only [hpass, if_true,
                show hitLimit none (y + 1) = false from rfl, Bool.false_eq_true, if_false]
              by_cases hlim : hitLimit (some v) (y + 1)
              · have hy : y + 1 ≥ v := by
                  simpa [hitLimit, hv] using hlim
                have hk : ((v - y) ⊔ 1).toNat = 1 := by omega
                simp [hlim, hk]
              · have hy : ¬(y + 1 ≥ v) := by
                  simpa [hitLimit, hv] using hlim
                have hk : ((v - y) ⊔ 1).toNat = ((v - (y + 1)) ⊔ 1).toNat + 1 := by omega
                simp only [hlim, Bool.false_eq_true, if_false, hk, List.take_succ_cons]
                rw [ih (y + 1)]
            · simp only [hpass, Bool.false_eq_true, if_false]
              exact ih y


/-- A truthy `max_alerts = v` truncates the reverse production to its first
`max(v, 1)` records (counting from counter `y`). -/
theorem emitRevLines_take {α : Type} (loads : List Nat → Option α) (tsf : α → Option Int)
    (s e : Option Int) (v : Int) (hv : v ≠ 0) :
    ∀ (lines : List (List Nat)) (y : Int),
    stepOut (emitRevLines loads tsf s e (some v) lines y)
      = (stepOut (emitRevLines loads tsf s e none lines y)).take ((v - y) ⊔ 1).toNat := by
  intro lines
  induction lines with
  | nil => intro y; simp [emitRevLines, stepOut]
  | cons raw rest ih =>
      intro y
      by_cases hemp : (stripBytes raw).isEmpty
      · simp only [emitRevLines, hemp, if_true]
        exact ih y
      · simp only [emitRevLines, hemp, Bool.false_eq_true, if_false]
        cases hload : loads (stripBytes raw) with
        | none => exact ih y
        | some a =>
            by_cases hold : oldTimestamp (tsf a) s
            · simp [hold, stepOut]
            · simp only [hold, Bool.false_eq_true, if_false]
              by_cases hpass : passesTimeFilter (tsf a) s e
              · simp only [hpass, if_true,
                  show hitLimit none (y + 1) = false from rfl, Bool.false_eq_true, if_false]
                by_cases hlim : hitLimit (some v) (y + 1)
                · have hy : y + 1 ≥ v := by
                    simpa [hitLimit, hv] using hlim
                  have hk : ((v - y) ⊔ 1).toNat = 1 := by omega
                  cases h1 : emitRevLines loads tsf s e none rest (y + 1) <;>
                    simp [hlim, hk, stepOut]
                · have hy : ¬(y + 1 ≥ v) := by
                    simpa [hitLimit, hv] using hlim
                  have hk : ((v - y) ⊔ 1).toNat = ((v - (y + 1)) ⊔ 1).toNat + 1 := by omega
                  simp only [hlim, Bool.false_eq_true, if_false]
                  have hstep : ∀ (res : StepRes α),
                      stepOut (match res with
                        | StepRes.stop out => StepRes.stop (a :: out)
                        | StepRes.more out y2 => StepRes.more (a :: out) y2) = a :: stepOut res := by
                    intro res
                    cases res <;> rfl
                  rw [hstep, hstep, hk, List.take_succ_cons, ih (y + 1)]
              · simp only [hpass, Bool.false_eq_true, if_false]
                exact ih y

end AlertParser

/-- C10 counterexample: with `max_alerts = -1` (not `≥ 1`), the count bound
does take effect — the forward read of `"3\n5\n7\n"` stops after one record
instead of producing all three — so the bound is not confined to
`max_alerts ≥ 1` as the claim states. -/
theorem c10_counterexample :
    AlertParser.parseForward AlertParser.digitLoads AlertParser.digitTs none none (some (-1)) fileThree = [3]
    ∧ AlertParser.parseForward AlertParser.digitLoads AlertParser.digitTs none none none fileThree = [3, 5, 7]
    ∧ AlertParser.parseForward AlertParser.digitLoads AlertParser.digitTs none none (some (-1)) fileThree
        ≠ AlertParser.parseForward AlertParser.digitLoads AlertParser.digitTs none none none fileThree := by
  refine ⟨by decide, by decide, ?_⟩
  decide

/-- C10 (amended): `max_alerts = 0` is treated as "no limit" in both read
modes — the output equals the unbounded output — while any nonzero
`max_alerts = m` makes production stop after `max(m, 1)` records: the bound
limits output to `m` records for `m ≥ 1`, and a negative `m` stops
production after the first emitted record. -/
theorem c10_zero_max_alerts_means_no_limit {α : Type} (rev : Bool)
    (loads : List Nat → Option α) (tsf : α → Option Int) (s e : Option Int)
    (file : List Nat) (m : Int) :
    AlertParser.parseAlerts rev loads tsf s e (some m) file
      = if m = 0 then AlertParser.parseAlerts rev loads tsf s e none file
        else (AlertParser.parseAlerts rev loads tsf s e none file).take ((m ⊔ 1).toNat) := by
  cases rev with
  | false =>
      by_cases hm : m = 0
      · rw [hm, if_pos rfl]
        exact AlertParser.forwardGo_zero loads tsf s e (AlertParser.splitNL file) 0
      · rw [if_neg hm]
        have h := AlertParser.forwardGo_take loads tsf s e m hm (AlertParser.splitNL file) 0
        rw [show m - 0 = m by ring] at h
        exact h
  | true =>
      show AlertParser.parseReverse loads tsf s e (some m) file = _
      rw [AlertParser.parseReverse_eq]
      by_cases hm : m = 0
      · rw [hm, if_pos rfl]
        rw [AlertParser.emitRevLines_zero loads tsf s e (AlertParser.revLines file) 0]
        rw [show AlertParser.parseAlerts true loads tsf s e none file
            = AlertParser.parseReverse loads tsf s e none file from rfl,
          AlertParser.parseReverse_eq]
      · rw [if_neg hm]
        have h := AlertParser.emitRevLines_take loads tsf s e m hm (AlertParser.revLines file) 0
        rw [show m - 0 = m by ring] at h
        rw [h]
        rw [show AlertParser.parseAlerts true loads tsf s e none file
            = AlertParser.parseReverse loads tsf s e none file from rfl,
          AlertParser.parseReverse_eq]

namespace AlertProcessor

/-- The timestamp fallback either succeeds for every ingestion time or
raises for every ingestion time: only the fallback VALUE depends on `now`. -/
theorem parseTimestampE_shape (p : String → Option Int) (v : Option JVal) :
    (∀ n : Int, ∃ t, parseTimestampE p n v = .ok t) ∨
    (∀ n : Int, parseTimestampE p n v = .error ()) := by
  cases v with
  | none => exact Or.inl (fun n => ⟨n, rfl⟩)
  | some jv =>
      by_cases htr : jvalTruthy jv
      · cases jv with
        | str s =>
            exact Or.inl (fun n => ⟨(p s).getD n, by simp [parseTimestampE, htr]⟩)
        | null => exact Or.inr (fun n => by simp [parseTimestampE, htr])
        | bool b => exact Or.inr (fun n => by simp [parseTimestampE, htr])
        | num k => exact Or.inr (fun n => by simp [parseTimestampE, htr])
        | arr l => exact Or.inr (fun n => by simp [parseTimestampE, htr])
        | obj f => exact Or.inr (fun n => by simp [parseTimestampE, htr])
      · exact Or.inl (fun n => ⟨n, by simp [parseTimestampE, htr]⟩)

/-- A step that always raises is skipped: the enrichment fold is unchanged. -/
theorem runEnrichers_skip (es1 es2 : List Enricher) (e : Enricher)
    (hfail : ∀ r al, e r al = .error ()) (raw : RawRecord) (a : Alert) :
    runEnrichers raw (es1 ++ e :: es2) a = runEnrichers raw (es1 ++ es2) a := by
  simp only [runEnrichers, List.foldl_append, List.foldl_cons]
  rw [hfail raw (List.foldl (fun al e' => match e' raw al with | .ok a1 => a1 | .error _ => al) a es1)]

end AlertProcessor

/-- C6: identity assignment is a pure function of the aliased raw content
and the raw timestamp string.  Two records with equal canonical (key-sorted)
dumps and equal raw timestamp strings get the same identity; a successful
identity has the form `{timestamp with ':' and '-' stripped}_{10 hex chars}`
(given only that the digest is an md5-style 32-hex-char string); and the
identity carried by a processed alert is independent of the ingestion time
`now` (the function takes no other run-dependent input). -/
theorem c6_identity_deterministic (digest : String → String)
    (hd : ∀ s, (digest s).length = 32 ∧ (digest s).data.all AlertProcessor.isHexChar = true)
    (r1 r2 : RawRecord)
    (hdump : AlertProcessor.canonicalDump (AlertProcessor.normalize r1)
      = AlertProcessor.canonicalDump (AlertProcessor.normalize r2))
    (hts : AlertProcessor.tsString (AlertProcessor.normalize r1)
      = AlertProcessor.tsString (AlertProcessor.normalize r2)) :
    AlertProcessor.generateAlertId digest (AlertProcessor.normalize r1)
      = AlertProcessor.generateAlertId digest (AlertProcessor.normalize r2)
    ∧ (∀ t, AlertProcessor.tsString (AlertProcessor.normalize r1) = some t →
        ∃ d, AlertProcessor.generateAlertId digest (AlertProcessor.normalize r1)
            = some (AlertProcessor.stripTsChars t ++ "_" ++ d)
          ∧ d.length = 10 ∧ d.data.all AlertProcessor.isHexChar = true)
    ∧ (∀ (parseIso : String → Option Int) (n1 n2 : Int) (raw : RawRecord),
        (AlertProcessor.process parseIso digest [] n1 raw).map (fun a => a.id)
          = (AlertProcessor.process parseIso digest [] n2 raw).map (fun a => a.id)) := by
  refine ⟨?_, ?_, ?_⟩
  · simp only [AlertProcessor.generateAlertId]
    rw [hdump, hts]
  · intro t ht
    refine ⟨AlertProcessor.strTake
      (digest (AlertProcessor.canonicalDump (AlertProcessor.normalize r1))) 10, ?_, ?_, ?_⟩
    · simp only [AlertProcessor.generateAlertId, ht]
    · have h32 : (digest (AlertProcessor.canonicalDump (AlertProcessor.normalize r1))).data.length = 32 :=
        (hd _).1
      simp [AlertProcessor.strTake, String.length, h32]
    · have hall := (hd (AlertProcessor.canonicalDump (AlertProcessor.normalize r1))).2
      simp only [AlertProcessor.strTake]
      rw [List.all_eq_true] at hall ⊢
      intro x hx
      exact hall x ((List.take_sublist 10 _).subset hx)
  · intro parseIso n1 n2 raw
    cases hid : AlertProcessor.generateAlertId digest (AlertProcessor.normalize raw) with
    | none => simp [AlertProcessor.process, AlertProcessor.processBody, hid]
    | some i =>
        rcases AlertProcessor.parseTimestampE_shape parseIso
            (PyDict.get? (AlertProcessor.normalize raw) "timestamp") with hok | herr
        · obtain ⟨t1, ht1⟩ := hok n1
          obtain ⟨t2, ht2⟩ := hok n2
          simp only [AlertProcessor.process, AlertProcessor.processBody, hid, ht1, ht2]
          cases hag : AlertProcessor.parseAgentE
              (PyDict.getD (AlertProcessor.normalize raw) "agent" (.obj [])) with
          | error u => rfl
          | ok ag =>
              cases hru : AlertProcessor.parseRuleE
                  (PyDict.getD (AlertProcessor.normalize raw) "rule" (.obj [])) with
              | error u => rfl
              | ok ru =>
                  cases hda : AlertProcessor.parseDataE
                      (PyDict.get? (AlertProcessor.normalize raw) "data") with
                  | error u => rfl
                  | ok da =>
                      simp only [AlertProcessor.runEnrichers, List.foldl_nil]
                      cases hv : (AlertProcessor.validate
                          { id := i, timestamp := t1, agent := ag, rule := ru, data := da,
                            location := PyDict.get? (AlertProcessor.normalize raw) "location",
                            full_log := PyDict.get? (AlertProcessor.normalize raw) "full_log",
                            decoder := PyDict.get? (AlertProcessor.normalize raw) "decoder" }).1 with
                      | false =>
                          have hv2 : (AlertProcessor.validate
                              { id := i, timestamp := t2, agent := ag, rule := ru, data := da,
                                location := PyDict.get? (AlertProcessor.normalize raw) "location",
                                full_log := PyDict.get? (AlertProcessor.normalize raw) "full_log",
                                decoder := PyDict.get? (AlertProcessor.normalize raw) "decoder" }).1 = false := hv
                          simp [hv, hv2]
                      | true =>
                          have hv2 : (AlertProcessor.validate
                              { id := i, timestamp := t2, agent := ag, rule := ru, data := da,
                                location := PyDict.get? (AlertProcessor.normalize raw) "location",
                                full_log := PyDict.get? (AlertProcessor.normalize raw) "full_log",
                                decoder := PyDict.get? (AlertProcessor.normalize raw) "decoder" }).1 = true := hv
                          simp [hv, hv2]
        · simp [AlertProcessor.process, AlertProcessor.processBody, hid, herr n1, herr n2]

/-- Witness for C6: a concrete record and md5-shaped digest produce an
identity of the specified form, and the processed identity is the same at
ingestion times 1 and 2. -/
theorem c6_witness :
    (∃ d, AlertProcessor.generateAlertId digest0 (AlertProcessor.normalize rc6)
        = some (AlertProcessor.stripTsChars "2024-01-01T00:00:00Z" ++ "_" ++ d)
      ∧ d.length = 10 ∧ d.data.all AlertProcessor.isHexChar = true)
    ∧ (AlertProcessor.process parseIso0 digest0 [] 1 rc6).map (fun a => a.id)
        = (AlertProcessor.process parseIso0 digest0 [] 2 rc6).map (fun a => a.id) := by
  have hd0 : ∀ s, (digest0 s).length = 32
      ∧ (digest0 s).data.all AlertProcessor.isHexChar = true := by
    intro s
    constructor
    · show ("00112233445566778899aabbccddeeff" : String).length = 32
      decide
    · show ("00112233445566778899aabbccddeeff" : String).data.all AlertProcessor.isHexChar = true
      decide
  have h := c6_identity_deterministic digest0 hd0 rc6 rc6 rfl rfl
  exact ⟨h.2.1 "2024-01-01T00:00:00Z" rfl, h.2.2 parseIso0 1 2 rc6⟩

/-- C9: `process` is total at its interface.  Any alert it returns passed
validation (so internal failures surface as `None`, never as an error to the
caller); an enrichment step that raises is skipped without affecting the
result; and a raw record whose `timestamp` field holds a non-string value —
which makes `_generate_alert_id` raise internally — yields `None`, not a
propagated exception. -/
theorem c9_process_total :
    (∀ (parseIso : String → Option Int) (digest : String → String)
        (es : List AlertProcessor.Enricher) (now : Int) (raw : RawRecord)
        (a : AlertProcessor.Alert),
      AlertProcessor.process parseIso digest es now raw = some a →
      (AlertProcessor.validate a).1 = true)
    ∧ (∀ (parseIso : String → Option Int) (digest : String → String)
        (es1 es2 : List AlertProcessor.Enricher) (now : Int) (raw : RawRecord)
        (e : AlertProcessor.Enricher), (∀ r al, e r al = .error ()) →
        AlertProcessor.process parseIso digest (es1 ++ e :: es2) now raw
          = AlertProcessor.process parseIso digest (es1 ++ es2) now raw)
    ∧ (∀ (parseIso : String → Option Int) (digest : String → String)
        (es : List AlertProcessor.Enricher) (now : Int),
        AlertProcessor.process parseIso digest es now c9badTs = none) := by
  refine ⟨?_, ?_, ?_⟩
  · intro parseIso digest es now raw a h
    simp only [AlertProcessor.process, AlertProcessor.processBody] at h
    cases hid : AlertProcessor.generateAlertId digest (AlertProcessor.normalize raw) <;>
      rw [hid] at h
    · simp at h
    next i =>
    cases hts : AlertProcessor.parseTimestampE parseIso now
        (PyDict.get? (AlertProcessor.normalize raw) "timestamp") <;> rw [hts] at h
    · simp at h
    next t =>
    cases hag : AlertProcessor.parseAgentE
        (PyDict.getD (AlertProcessor.normalize raw) "agent" (.obj [])) <;> rw [hag] at h
    · simp at h
    next ag =>
    cases hru : AlertProcessor.parseRuleE
        (PyDict.getD (AlertProcessor.normalize raw) "rule" (.obj [])) <;> rw [hru] at h
    · simp at h
    next ru =>
    cases hda : AlertProcessor.parseDataE
        (PyDict.get? (AlertProcessor.normalize raw) "data") <;> rw [hda] at h
    · simp at h
    next da =>
    dsimp only at h
    by_cases hv : (AlertProcessor.validate (AlertProcessor.runEnrichers
        (AlertProcessor.normalize raw) es
        { id := i, timestamp := t, agent := ag, rule := ru, data := da,
          location := PyDict.get? (AlertProcessor.normalize raw) "location",
          full_log := PyDict.get? (AlertProcessor.normalize raw) "full_log",
          decoder := PyDict.get? (AlertProcessor.normalize raw) "decoder" })).1
    · rw [if_pos hv] at h
      simp only [Option.some.injEq] at h
      rw [← h]
      exact hv
    · rw [if_neg hv] at h
      simp at h
  · intro parseIso digest es1 es2 now raw e hfail
    have hskip := AlertProcessor.runEnrichers_skip es1 es2 e hfail
    simp only [AlertProcessor.process, AlertProcessor.processBody, hskip]
  · intro parseIso digest es now
    rfl

/-- Witness for C9: a raising enricher is skipped on a concrete record, and
a concrete non-string timestamp yields `None`. -/
theorem c9_witness :
    AlertProcessor.process parseIso0 digest0 [failEnr] 0 c9raw
      = AlertProcessor.process parseIso0 digest0 [] 0 c9raw
    ∧ AlertProcessor.process parseIso0 digest0 [] 0 c9badTs = none :=
  ⟨c9_process_total.2.1 parseIso0 digest0 [] [] 0 c9raw failEnr (fun _ _ => rfl),
   c9_process_total.2.2 parseIso0 digest0 [] 0⟩

namespace CacheService

/-- The value `cache.get` returns is the pure key-value lookup. -/
theorem get_fst_eq_lookup {α : Type} (s : CacheState α) (k : String) :
    (get s k).1 = cacheLookup s k := by
  cases hfind : s.cache.find? (fun p => p.1 == k) <;>
    simp [get, cacheLookup, hfind]

/-- Moving a found entry to the most-recently-used end does not change the
key-value mapping (keys are unique in every reachable cache state). -/
theorem find?_eraseP_append {α : Type} (l : List (String × α)) (k k2 : String)
    (kv : String × α) (hnd : (l.map Prod.fst).Nodup)
    (hfind : l.find? (fun p => p.1 == k) = some kv) :
    ((l.eraseP (fun p => p.1 == k) ++ [(k, kv.2)]).find? (fun p => p.1 == k2)).map (fun p => p.2)
      = (l.find? (fun p => p.1 == k2)).map (fun p => p.2) := by
  induction l with
  | nil => simp at hfind
  | cons hd rest ih =>
      obtain ⟨k0, v0⟩ := hd
      simp only [List.map_cons, List.nodup_cons] at hnd
      by_cases h0 : k0 == k
      · have hk0 : k0 = k := by simpa using h0
        rw [List.find?_cons_of_pos _ (by simpa using h0)] at hfind
        have hkv : kv = (k0, v0) := by
          simpa using hfind.symm
        rw [show (((k0, v0) :: rest).eraseP (fun p => p.1 == k)) = rest by
          simp [List.eraseP_cons, h0]]
        by_cases h2 : k0 == k2
        · have hk02 : k0 = k2 := by simpa using h2
          rw [List.find?_cons_of_pos _ (by simpa using h2)]
          have hnone : rest.find? (fun p => p.1 == k2) = none := by
            rw [List.find?_eq_none]
            intro x hx hpx
            apply hnd.1
            have hx1 : x.1 = k2 := by simpa using hpx
            have hk0x : k0 = x.1 := by rw [hx1, hk02]
            rw [hk0x]
            exact List.mem_map_of_mem Prod.fst hx
          have hkk2 : k = k2 := by rw [← hk0]; exact hk02
          rw [List.find?_append, hnone, Option.none_or,
            List.find?_cons_of_pos _ (by simp [hkk2])]
          simp [hkv]
        · rw [List.find?_cons_of_neg _ (by simpa using h2)]
          rw [List.find?_append,
            show ([(k, kv.2)].find? (fun p => p.1 == k2)) = none by
              simp only [List.find?_singleton]
              rw [if_neg]
              rw [← hk0]
              simpa using h2]
          simp
      · rw [List.find?_cons_of_neg _ (by simpa using h0)] at hfind
        rw [show (((k0, v0) :: rest).eraseP (fun p => p.1 == k))
            = (k0, v0) :: rest.eraseP (fun p => p.1 == k) by
          simp [List.eraseP_cons, h0]]
        by_cases h2 : k0 == k2
        · rw [List.cons_append, List.find?_cons_of_pos _ (by simpa using h2),
            List.find?_cons_of_pos _ (by simpa using h2)]
        · rw [List.cons_append, List.find?_cons_of_neg _ (by simpa using h2),
            List.find?_cons_of_neg _ (by simpa using h2)]
          exact ih hnd.2 hfind

/-- `cache.get`'s side effects (recency promotion, hit/miss counters) leave
the key-value mapping unchanged, so modelling query-time reads with
`cacheLookup` is faithful. -/
theorem get_preserves_lookup {α : Type} (s : CacheState α) (k k2 : String)
    (hnd : (s.cache.map Prod.fst).Nodup) :
    cacheLookup (get s k).2 k2 = cacheLookup s k2 := by
  cases hfind : s.cache.find? (fun p => p.1 == k) with
  | none => simp [get, cacheLookup, hfind]
  | some kv =>
      simp only [get, hfind, cacheLookup]
      exact find?_eraseP_append s.cache k k2 kv hnd hfind

end CacheService

/-- C2 counterexample: a store whose time index still lists identity `"x"`
after its eviction from the cache.  `get_alerts` with no filters counts
`"x"` in the returned total (total = 1) even though the cache no longer
holds it — the no-filter candidate list is not re-validated against the
cache — while the returned page correctly drops it. -/
theorem c2_counterexample :
    (AlertService.getAlerts stEvicted 10 0 none).2 = 1
    ∧ (AlertService.getAlerts stEvicted 10 0 none).1 = []
    ∧ CacheService.cacheLookup stEvicted.cache "x" = none :=
  ⟨rfl, rfl, rfl⟩

/-- C2 (amended): every record in a returned page comes from the cache (in
any filter mode, evicted identities never reach the page); when a filter
object is supplied, every identity contributing to the total is re-validated
against the cache, so evicted identities contribute neither to the page nor
to the total; but with no filters the total counts all time-indexed
identities without cache validation, so evicted identities DO inflate the
no-filter total. -/
theorem c2_list_revalidates_against_cache :
    (∀ (st : AlertService.ServiceState) (limit offset : Nat)
        (fo : Option AlertService.FilterParams),
      ∀ a ∈ (AlertService.getAlerts st limit offset fo).1,
        ∃ k, CacheService.cacheLookup st.cache k = some a)
    ∧ (∀ (st : AlertService.ServiceState) (f : AlertService.FilterParams),
        ∀ aid ∈ AlertService.getFilteredIds st (some f),
          CacheService.cacheLookup st.cache aid ≠ none)
    ∧ (∀ (st : AlertService.ServiceState) (limit offset : Nat)
        (f : AlertService.FilterParams),
        (AlertService.getAlerts st limit offset (some f)).2
          = (AlertService.getFilteredIds st (some f)).length)
    ∧ (∀ (st : AlertService.ServiceState) (limit offset : Nat),
        (AlertService.getAlerts st limit offset
            (none : Option AlertService.FilterParams)).2 = st.timeIndex.length) := by
  refine ⟨?_, ?_, ?_, ?_⟩
  · intro st limit offset fo a ha
    simp only [AlertService.getAlerts] at ha
    obtain ⟨aid, _, heq⟩ := List.mem_filterMap.mp ha
    exact ⟨aid, heq⟩
  · intro st f aid ha
    simp only [AlertService.getFilteredIds] at ha
    obtain ⟨_, hpred⟩ := List.mem_filter.mp ha
    intro hnone
    rw [hnone] at hpred
    simp at hpred
  · intro st limit offset f
    rfl
  · intro st limit offset
    simp [AlertService.getAlerts, AlertService.getFilteredIds]

/-- Witness for C2's amended theorem on concrete stores: a live record is
page-reachable and cache-validated under an agent filter, and the no-filter
total of the evicted-identity store counts the stale index entry. -/
theorem c2_witness :
    (∃ k, CacheService.cacheLookup stLive.cache k = some alert0)
    ∧ CacheService.cacheLookup stLive.cache "x" ≠ none
    ∧ (AlertService.getAlerts stLive 10 0 (some fAgent)).2
        = (AlertService.getFilteredIds stLive (some fAgent)).length
    ∧ (AlertService.getAlerts stEvicted 10 0
        (none : Option AlertService.FilterParams)).2 = stEvicted.timeIndex.length := by
  refine ⟨?_, ?_, ?_, ?_⟩
  · refine c2_list_revalidates_against_cache.1 stLive 10 0 (some fAgent) alert0 ?_
    rw [show (AlertService.getAlerts stLive 10 0 (some fAgent)).1 = [alert0] from rfl]
    exact List.mem_singleton.mpr rfl
  · refine c2_list_revalidates_against_cache.2.1 stLive fAgent "x" ?_
    rw [show AlertService.getFilteredIds stLive (some fAgent) = ["x"] from rfl]
    exact List.mem_singleton.mpr rfl
  · exact c2_list_revalidates_against_cache.2.2.1 stLive 10 0 fAgent
  · exact c2_list_revalidates_against_cache.2.2.2 stEvicted 10 0

end WazuhSOC
